import Mathlib

/-!
# Verification of the EVPN multihoming fabric builder (evpn-mh.py)

Shallow embedding of the pure synthesis/reconciliation core of the script:

* Python `dict`s are modelled as association lists (`List (K × V)`) with
  insertion-order preserving overwrite (`dinsert`) and first-match lookup
  (`dlookup`); a Python dict always has no duplicate keys, which appears as
  `Nodup` hypotheses where the distinction matters.
* Python strings manipulated character-wise are modelled as `List Char`.
* Functions that can raise exceptions are modelled with `Except`.
* Machine-level IP addresses are modelled as `Nat` with explicit range
  checks where the Python `ipaddress` library would raise on overflow.
-/

set_option autoImplicit false

namespace EvpnMh

universe u v

variable {K : Type u} {V : Type v}

/-- Python `dict` assignment `d[k] = v`: if the key is present its value is
replaced in place (position kept), otherwise the pair is appended at the end.
This is the update operation used for every dict in `evpn-mh.py`. -/
def dinsert [DecidableEq K] : List (K × V) → K → V → List (K × V)
  | [], k, v => [(k, v)]
  | (a, b) :: t, k, v => if a = k then (k, v) :: t else (a, b) :: dinsert t k v

/-- Python `dict` lookup `d[k]` / `d.get(k)`: first (and in a real dict, only)
binding of the key. -/
def dlookup [DecidableEq K] (k : K) : List (K × V) → Option V
  | [] => none
  | (a, b) :: t => if a = k then some b else dlookup k t

/-- The key set of a modelled dict. -/
def dkeys (l : List (K × V)) : List K := l.map Prod.fst

/-- `for k, v in src.items(): dst[k] = v` — the dict-update loop used twice in
`_merge_port_configs`. -/
def dfold [DecidableEq K] (m : List (K × V)) (l : List (K × V)) : List (K × V) :=
  l.foldl (fun acc p => dinsert acc p.1 p.2) m

/-- `_merge_port_configs(current_port_config, new_evpn_ports, esi_lag_name)`
from `evpn-mh.py` (lines 382–415): start from an empty dict, copy every entry
of the cached current config, then copy every entry of the newly synthesized
EVPN ports on top.  The `esi_lag_name` argument is unused by the source
function and is therefore not modelled. -/
def _merge_port_configs [DecidableEq K]
    (current_port_config new_evpn_ports : List (K × V)) : List (K × V) :=
  dfold (dfold [] current_port_config) new_evpn_ports

/-- One parsed INTERFACES row as produced by `_parse_interfaces` (the fields
`_build_topology` reads; speed/channelization are consumed only by
`_build_optic_port_config`, which no claim is about). -/
structure Entry where
  src_device : String
  src_int : String
  dst_device : String
  dst_int : String
  ae_idx : Option Int := none
deriving DecidableEq, Repr

/-- The same physical link record seen from the opposite side. -/
def swapEntry (e : Entry) : Entry :=
  ⟨e.dst_device, e.dst_int, e.src_device, e.src_int, e.ae_idx⟩

/-- `device_roles` dict: device name → role string. -/
abbrev Roles := List (String × String)

/-- `device_roles.get(d) == "collapsed-core"`. -/
def isCore (roles : Roles) (d : String) : Bool :=
  decide (dlookup d roles = some "collapsed-core")

/-- `[d for d, r in device_roles.items() if r == "collapsed-core"]`. -/
def coreDeviceNames (roles : Roles) : List String :=
  (roles.filter (fun p => decide (p.2 = "collapsed-core"))).map Prod.fst

/-- Python string comparison: lexicographic by code point (structurally
recursive so that the kernel can evaluate it; Lean's own `String.ltb` is
defined by well-founded recursion on byte positions and cannot be reduced
by `decide`). -/
def strLtb : List Char → List Char → Bool
  | [], [] => false
  | [], _ :: _ => true
  | _ :: _, [] => false
  | a :: s, b :: t =>
    if a.toNat < b.toNat then true
    else if b.toNat < a.toNat then false
    else strLtb s t

/-- Python `a <= b` on strings. -/
def pyStrLe (a b : String) : Prop := strLtb b.data a.data = false

instance : DecidableRel pyStrLe := fun a b => by unfold pyStrLe; infer_instance

/-- Three-way Python string comparison (for tuple sort keys). -/
def strCmp : List Char → List Char → Ordering
  | [], [] => .eq
  | [], _ :: _ => .lt
  | _ :: _, [] => .gt
  | a :: s, b :: t =>
    if a.toNat < b.toNat then .lt
    else if b.toNat < a.toNat then .gt
    else strCmp s t

/-- The sorted core-device list (`core_devices.sort()` in `_build_topology`,
`sorted([...])` in `create_fabric`); Python `sorted` on strings is
lexicographic by code point and stable, as is insertion sort. -/
def sortedCoreDevices (roles : Roles) : List String :=
  List.insertionSort pyStrLe (coreDeviceNames roles)

/-- A deduplicated core-to-core link, in the orientation of the surviving
record (`{"core1": src, "port1": src_int, "core2": dst, "port2": dst_int}`). -/
structure CoreLink where
  core1 : String
  port1 : String
  core2 : String
  port2 : String
deriving DecidableEq, Repr

/-- `frozenset({(src_device, src_int), (dst_device, dst_int)})` — the
deduplication key of a link record: the unordered pair of its endpoints. -/
def linkKeyOfEntry (e : Entry) : Finset (String × String) :=
  {(e.src_device, e.src_int), (e.dst_device, e.dst_int)}

/-- One iteration of the core-link discovery loop of `_build_topology`
(lines 511–519): accumulator is (`seen`, `core_links`). -/
def coreLinkStep (coreDevs : List String)
    (acc : List (Finset (String × String)) × List CoreLink) (e : Entry) :
    List (Finset (String × String)) × List CoreLink :=
  if e.src_device ∈ coreDevs ∧ e.dst_device ∈ coreDevs then
    if linkKeyOfEntry e ∈ acc.1 then acc
    else (linkKeyOfEntry e :: acc.1,
          acc.2 ++ [⟨e.src_device, e.src_int, e.dst_device, e.dst_int⟩])
  else acc

/-- The deduplicated `core_links` list built by `_build_topology`. -/
def buildCoreLinks (coreDevs : List String) (entries : List Entry) : List CoreLink :=
  (entries.foldl (coreLinkStep coreDevs) ([], [])).2

/-- One port's configuration dict as written by `_build_topology`
(all fields any of its entries ever carry). -/
structure PortEntry where
  usage : String
  aggregated : Bool := false
  esilag : Bool := false
  ae_idx : Option Int := none
  link_name : Option String := none
deriving DecidableEq, Repr

/-- `{"usage": "EVPN-ESI-LAG", "aggregated": True, "esilag": True, "ae_idx": ae}`. -/
def esiLagEntry (ae : Int) : PortEntry :=
  { usage := "EVPN-ESI-LAG", aggregated := true, esilag := true, ae_idx := some ae }

/-- `{"usage": "EVPN-ESI-LAG", "aggregated": True, "ae_idx": ae}` (access side). -/
def accessBundleEntry (ae : Int) : PortEntry :=
  { usage := "EVPN-ESI-LAG", aggregated := true, ae_idx := some ae }

/-- `{"usage": u, "link_name": f"link{i}"}` written by the core-link loop. -/
def linkUsageEntry (u : String) (i : Nat) : PortEntry :=
  { usage := u, link_name := some ("link" ++ toString i) }

/-- `core_port_config` / `access_port_config`: device → port → entry. -/
abbrev PortCfg := List (String × List (String × PortEntry))

/-- Structural failures of `_build_topology`; the script raises bare
`Exception`s with messages, the spec names them `TopologyUnderspecifiedError`,
`AggregationGroupSizeError` and `PortConflictError`. -/
inductive TopoErr where
  | underspecified (n : Nat)
  | groupSize (ae : Int) (n : Nat)
  | portConflict (dev port : String)
deriving DecidableEq, Repr

/-- One iteration of the `ae_groups` grouping loop (lines 524–529): a record
with a present aggregation id qualifies when exactly one endpoint is a core
device; `ae_groups.setdefault(ae, []).append(e)`. -/
def aeGroupStep (roles : Roles) (g : List (Int × List Entry)) (e : Entry) :
    List (Int × List Entry) :=
  match e.ae_idx with
  | none => g
  | some ae =>
    if Bool.xor (isCore roles e.src_device) (isCore roles e.dst_device) then
      dinsert g ae (((dlookup ae g).getD []) ++ [e])
    else g

/-- The `ae_groups` dict (insertion-ordered, as a Python dict is). -/
def aeGroups (roles : Roles) (entries : List Entry) : List (Int × List Entry) :=
  entries.foldl (aeGroupStep roles) []

/-- The qualifying aggregation legs of a given aggregation id: records whose
aggregation id is present and equal to `ae` and of which exactly one endpoint
is a core device. -/
def legsOf (roles : Roles) (entries : List Entry) (ae : Int) : List Entry :=
  entries.filter (fun e =>
    decide (e.ae_idx = some ae) &&
      Bool.xor (isCore roles e.src_device) (isCore roles e.dst_device))

/-- ((core device, core port), (access device, access port)) of one
aggregation leg, as picked in the loop body at lines 536–542. -/
def legSides (roles : Roles) (c : Entry) : (String × String) × (String × String) :=
  if isCore roles c.src_device then ((c.src_device, c.src_int), (c.dst_device, c.dst_int))
  else ((c.dst_device, c.dst_int), (c.src_device, c.src_int))

def accessDevOf (roles : Roles) (c : Entry) : String := (legSides roles c).2.1

def accessPortOf (roles : Roles) (c : Entry) : String := (legSides roles c).2.2

/-- Core-side processing of one aggregation leg (lines 536–546): raise
`PortConflictError` if the core port is already claimed, else write the
ESI-LAG entry.  For a qualifying leg the core device is always a key of
`core_port_config` (it was initialised with every core device), so the
`getD []` default is never exercised on the script's reachable states. -/
def processLeg (roles : Roles) (cfg : PortCfg) (ae : Int) (c : Entry) :
    Except TopoErr PortCfg :=
  if (legSides roles c).1.2 ∈ dkeys ((dlookup (legSides roles c).1.1 cfg).getD []) then
    .error (.portConflict (legSides roles c).1.1 (legSides roles c).1.2)
  else
    .ok (dinsert cfg (legSides roles c).1.1
      (dinsert ((dlookup (legSides roles c).1.1 cfg).getD [])
        (legSides roles c).1.2 (esiLagEntry ae)))

/-- `",".join(sorted({p for p in access_ports if p}))` for the two legs'
access ports (in loop order). -/
def portKeyOf (roles : Roles) (c1 c2 : Entry) : String :=
  String.intercalate ","
    (List.insertionSort pyStrLe
      (([accessPortOf roles c1, accessPortOf roles c2].filter (fun p => decide (p ≠ ""))).dedup))

/-- The mutable state threaded through the aggregation loop. -/
structure AeState where
  core : PortCfg
  access : PortCfg
deriving DecidableEq, Repr

/-- Body of `for ae, conns in ae_groups.items()` (lines 531–549): a group is
exactly two legs or `AggregationGroupSizeError`; both legs' core ports are
claimed; the access device (of the last leg, as the Python loop variable ends
up) is assigned the one-entry bundle dict. -/
def processGroup (roles : Roles) (st : AeState) (ae : Int) (conns : List Entry) :
    Except TopoErr AeState :=
  match conns with
  | [c1, c2] => do
    let cfg1 ← processLeg roles st.core ae c1
    let cfg2 ← processLeg roles cfg1 ae c2
    .ok ⟨cfg2, dinsert st.access (accessDevOf roles c2)
                 [(portKeyOf roles c1 c2, accessBundleEntry ae)]⟩
  | _ => .error (.groupSize ae conns.length)

/-- `core_port_config = {c: {} for c in core_devices}`. -/
def initCoreCfg (coreDevs : List String) : PortCfg :=
  coreDevs.map (fun c => (c, []))

/-- The whole aggregation-group phase of `_build_topology`. -/
def buildAe (roles : Roles) (coreDevs : List String) (entries : List Entry) :
    Except TopoErr AeState :=
  (aeGroups roles entries).foldlM (fun st p => processGroup roles st p.1 p.2)
    ⟨initCoreCfg coreDevs, []⟩

/-- The size-2 groups in dict order, as (aggregation id, first leg, second
leg); under a successful `buildAe` every group has this shape. -/
def groupPairs (groups : List (Int × List Entry)) : List (Int × Entry × Entry) :=
  groups.filterMap (fun p =>
    match p.2 with
    | [c1, c2] => some (p.1, c1, c2)
    | _ => none)

/-- `{port_key: {"usage": "EVPN-ESI-LAG", "aggregated": True, "ae_idx": ae}}` —
the one-entry bundle dict assigned to the access device (line 549). -/
def bundleOf (roles : Roles) (ae : Int) (c1 c2 : Entry) : List (String × PortEntry) :=
  [(portKeyOf roles c1 c2, accessBundleEntry ae)]

/-- Python tuple comparison for the sort key
`lambda x: (x["core1"], x["core2"], x["port1"], x["port2"])`. -/
def linkCmp (a b : CoreLink) : Ordering :=
  (strCmp a.core1.data b.core1.data).then ((strCmp a.core2.data b.core2.data).then
    ((strCmp a.port1.data b.port1.data).then (strCmp a.port2.data b.port2.data)))

def linkLe (a b : CoreLink) : Prop := linkCmp a b ≠ Ordering.gt

instance : DecidableRel linkLe := fun a b => by unfold linkLe; infer_instance

/-- `sorted(core_links, key=...)`; Python sorted is stable, as is insertion sort. -/
def sortLinks (ls : List CoreLink) : List CoreLink := List.insertionSort linkLe ls

/-- `core_port_config[d][p] = e` (nested dict write). -/
def dinsert2 (cfg : PortCfg) (d p : String) (e : PortEntry) : PortCfg :=
  dinsert cfg d (dinsert ((dlookup d cfg).getD []) p e)

/-- Body of the core-link numbering loop (lines 551–558) at 1-based index `i`. -/
def linkAssign (cfg : PortCfg) (i : Nat) (l : CoreLink) : PortCfg :=
  if i % 2 = 1 then
    dinsert2 (dinsert2 cfg l.core1 l.port1 (linkUsageEntry "evpn_downlink" i))
      l.core2 l.port2 (linkUsageEntry "evpn_uplink" i)
  else
    dinsert2 (dinsert2 cfg l.core1 l.port1 (linkUsageEntry "evpn_uplink" i))
      l.core2 l.port2 (linkUsageEntry "evpn_downlink" i)

def coreLinkLoop : PortCfg → Nat → List CoreLink → PortCfg
  | cfg, _, [] => cfg
  | cfg, i, l :: ls => coreLinkLoop (linkAssign cfg i l) (i + 1) ls

/-- `for i, l in enumerate(sorted(core_links, key=...), start=1): ...`. -/
def coreLinkStage (cfg : PortCfg) (links : List CoreLink) : PortCfg :=
  coreLinkLoop cfg 1 (sortLinks links)

/-- `_build_topology(entries, device_roles)` (lines 501–559): core-device
check, core-link dedup, aggregation groups, then the core-link usage loop
writes (possibly over earlier ESI-LAG entries) into `core_port_config`. -/
def _build_topology (entries : List Entry) (roles : Roles) :
    Except TopoErr (List CoreLink × PortCfg × PortCfg) :=
  if (sortedCoreDevices roles).length < 2 then
    .error (.underspecified (sortedCoreDevices roles).length)
  else
    Except.bind (buildAe roles (sortedCoreDevices roles) entries) (fun st =>
      .ok (buildCoreLinks (sortedCoreDevices roles) entries,
        coreLinkStage st.core (buildCoreLinks (sortedCoreDevices roles) entries),
        st.access))

/-- Lookup of `core_port_config[d][p]` in the nested dict model. -/
def dlookup2 (cfg : PortCfg) (d p : String) : Option PortEntry :=
  (dlookup d cfg).bind (dlookup p)

/-- The (device, port) endpoints of a list of core links, in order. -/
def endpointsOf : List CoreLink → List (String × String)
  | [] => []
  | l :: ls => (l.core1, l.port1) :: (l.core2, l.port2) :: endpointsOf ls

/-- `core_offsets = {core_devices[0]: 1, core_devices[1]: 2}` (line 737);
`create_fabric` has already aborted unless there are at least two sorted core
devices, so the catch-all branch is unreachable there. -/
def core_offsets (coreDevs : List String) : List (String × Nat) :=
  match coreDevs with
  | a :: b :: _ => dinsert (dinsert [] a 1) b 2
  | _ => []

/-- `get_base_port` (lines 449–458).  The regex `^([^:]+)(?::\d+)?$` is
embedded by its exact case analysis: the whole name must be a non-empty
colon-free base, optionally followed by one ':' and a non-empty digit run;
on a match the base is returned, otherwise the name is returned unchanged.
Strings are modelled as their character lists. -/
def get_base_port (port_name : List Char) : List Char :=
  if port_name = [] then port_name
  else
    let base := port_name.takeWhile (fun c => decide (c ≠ ':'))
    let rest := port_name.dropWhile (fun c => decide (c ≠ ':'))
    if base = [] then port_name
    else
      match rest with
      | [] => base
      | _ :: ds => if ds ≠ [] ∧ ds.all Char.isDigit then base else port_name

/-- Python `str.strip()` on a whitespace-split token (character-list model). -/
def trimL (l : List Char) : List Char :=
  ((l.dropWhile Char.isWhitespace).reverse.dropWhile Char.isWhitespace).reverse

/-- Helper for `str.split()`: accumulates the current token (reversed). -/
def splitWsAux : List Char → List Char → List (List Char)
  | [], cur => if cur = [] then [] else [cur.reverse]
  | c :: cs, cur =>
    if c.isWhitespace then
      if cur = [] then splitWsAux cs [] else cur.reverse :: splitWsAux cs []
    else splitWsAux cs (c :: cur)

/-- Python `str.split()` with no argument: split on whitespace runs, no empty
tokens. -/
def splitWs (l : List Char) : List (List Char) := splitWsAux l []

/-- `pair.split('@', 1)[0].strip()`. -/
def routeOf (pair : List Char) : List Char :=
  trimL (pair.takeWhile (fun c => decide (c ≠ '@')))

/-- `pair.split('@', 1)[1].strip()` (everything after the first '@'). -/
def nexthopOf (pair : List Char) : List Char :=
  trimL ((pair.dropWhile (fun c => decide (c ≠ '@'))).tail)

/-- The token loop of `_parse_static_routes` (lines 87–106).  `V` is the
validity oracle standing for the Python standard-library call
`ipaddress.ip_network(route, strict=False)` succeeding.  The whole loop sits
inside one `try`: when validation raises, the `except` swallows the error
and the dict built *so far* is returned — the remaining tokens are never
visited.  A token that is empty, has no '@', or has an empty route or
next-hop half, is skipped with `continue`. -/
def parseLoop (V : List Char → Bool) :
    List (List Char × List Char) → List (List Char) → List (List Char × List Char)
  | acc, [] => acc
  | acc, t :: rest =>
    let pair := trimL t
    if pair = [] ∨ pair.contains '@' = false then parseLoop V acc rest
    else
      let route := routeOf pair
      let nexthop := nexthopOf pair
      if route = [] ∨ nexthop = [] then parseLoop V acc rest
      else if V route then parseLoop V (dinsert acc route nexthop) rest
      else acc

/-- `_parse_static_routes(routes_str)` (lines 67–111): the returned dict maps
each stored route to `{"via": nexthop}`; the value is modelled by the
next-hop string itself. -/
def _parse_static_routes (V : List Char → Bool) (routes_str : Option (List Char)) :
    List (List Char × List Char) :=
  match routes_str with
  | none => []
  | some s => if trimL s = [] then [] else parseLoop V [] (splitWs (trimL s))

/-- Modelled from the Python standard library (not repository code):
`ipaddress.ip_network(s, strict=False)` succeeds on `"10.0.0.0/24"` and
raises `ValueError` on `"x@y"`'s route half `"x"`.  This concrete oracle
records those facts for the strings exercised by the concrete inputs below. -/
def ipNetworkOkExample (s : List Char) : Bool :=
  decide (s = "10.0.0.0/24".data)

/-- One NETWORKS row as `make_other_ip_configs` consumes it: the network name
and the result of `ipaddress.ip_interface` on the optional GATEWAY/GATEWAY6
cells, modelled as (host-address value, prefix length). -/
structure NetRow where
  name : String
  gw4 : Option (Nat × Nat) := none
  gw6 : Option (Nat × Nat) := none
deriving DecidableEq, Repr

/-- The per-network entry written by `make_other_ip_configs`; the v4 netmask
is stored as its 32-bit value, the v6 netmask as the prefix length (the
script renders them as `str(netmask)` and `f"/{prefixlen}"`). -/
structure OtherIpEntry where
  ip : Option Nat := none
  netmask : Option Nat := none
  ip6 : Option Nat := none
  netmask6 : Option Nat := none
deriving DecidableEq, Repr

/-- `i4.network.netmask` as a 32-bit value, from the prefix length. -/
def v4mask (p : Nat) : Nat := 2 ^ 32 - 2 ^ (32 - p)

/-- The entry built for one row (lines 744–754): the v4 part first (its
addition can raise), then the v6 part on top.  Python address arithmetic
`i.ip + offset` raises `AddressValueError` when the result leaves the
address family's range, which aborts the whole run. -/
def rowEntry (offset : Nat) (net : NetRow) : Except String OtherIpEntry :=
  match net.gw4, net.gw6 with
  | none, none => .ok {}
  | some (a, p), none =>
    if a + offset < 2 ^ 32 then
      .ok { ip := some (a + offset), netmask := some (v4mask p) }
    else .error "AddressValueError"
  | none, some (a6, p6) =>
    if a6 + offset < 2 ^ 128 then
      .ok { ip6 := some (a6 + offset), netmask6 := some p6 }
    else .error "AddressValueError"
  | some (a, p), some (a6, p6) =>
    if a + offset < 2 ^ 32 then
      if a6 + offset < 2 ^ 128 then
        .ok { ip := some (a + offset), netmask := some (v4mask p),
              ip6 := some (a6 + offset), netmask6 := some p6 }
      else .error "AddressValueError"
    else .error "AddressValueError"

/-- What `rowEntry` yields whenever it succeeds (pure form). -/
def rowEntryOk (offset : Nat) (net : NetRow) : OtherIpEntry :=
  { ip := net.gw4.map (fun g => g.1 + offset),
    netmask := net.gw4.map (fun g => v4mask g.2),
    ip6 := net.gw6.map (fun g => g.1 + offset),
    netmask6 := net.gw6.map (fun g => g.2) }

/-- `make_other_ip_configs(offset)` (lines 739–757): skip unnamed rows, build
the entry (which can raise), store it only when non-empty (i.e. when at
least one gateway is present). -/
def make_other_ip_configs (offset : Nat) :
    List NetRow → List (String × OtherIpEntry) → Except String (List (String × OtherIpEntry))
  | [], cfg => .ok cfg
  | net :: rest, cfg =>
    if net.name = "" then make_other_ip_configs offset rest cfg
    else do
      let e ← rowEntry offset net
      if net.gw4 = none ∧ net.gw6 = none then make_other_ip_configs offset rest cfg
      else make_other_ip_configs offset rest (dinsert cfg net.name e)

/-- The (name, entry) pairs a successful `make_other_ip_configs` run stores,
in row order: rows with an empty name or no gateway at all are skipped. -/
def entriesOf (offset : Nat) : List NetRow → List (String × OtherIpEntry) :=
  List.filterMap (fun net =>
    if net.name = "" ∨ (net.gw4 = none ∧ net.gw6 = none) then none
    else some (net.name, rowEntryOk offset net))

/-! ## Dictionary lemmas -/

theorem dlookup_dinsert_self [DecidableEq K] (m : List (K × V)) (k : K) (v : V) :
    dlookup k (dinsert m k v) = some v := by
  induction m with
  | nil => simp [dinsert, dlookup]
  | cons p t ih =>
    obtain ⟨a, b⟩ := p
    by_cases h : a = k
    · subst h; simp [dinsert, dlookup]
    · simp [dinsert, dlookup, h, ih]

theorem dlookup_dinsert_ne [DecidableEq K] (m : List (K × V)) (k k' : K) (v : V)
    (h : k' ≠ k) : dlookup k' (dinsert m k v) = dlookup k' m := by
  have hkk' : ¬ k = k' := fun hh => h hh.symm
  induction m with
  | nil => simp [dinsert, dlookup, hkk']
  | cons p t ih =>
    obtain ⟨a, b⟩ := p
    by_cases hak : a = k
    · subst hak; simp [dinsert, dlookup, hkk']
    · simp [dinsert, dlookup, hak, ih]

theorem dkeys_cons (p : K × V) (t : List (K × V)) : dkeys (p :: t) = p.1 :: dkeys t := rfl

theorem mem_dkeys_dinsert [DecidableEq K] (m : List (K × V)) (k a : K) (v : V) :
    a ∈ dkeys (dinsert m k v) ↔ a = k ∨ a ∈ dkeys m := by
  induction m with
  | nil => simp [dinsert, dkeys]
  | cons p t ih =>
    obtain ⟨x, y⟩ := p
    by_cases h : x = k
    · subst h
      have hrw : dinsert ((x, y) :: t) x v = (x, v) :: t := by simp [dinsert]
      rw [hrw, dkeys_cons, dkeys_cons]
      simp only [List.mem_cons]
      tauto
    · simp only [dinsert, if_neg h, dkeys_cons, List.mem_cons, ih]
      tauto

theorem dlookup_eq_none_iff [DecidableEq K] (m : List (K × V)) (k : K) :
    dlookup k m = none ↔ k ∉ dkeys m := by
  induction m with
  | nil => simp [dlookup, dkeys]
  | cons p t ih =>
    obtain ⟨a, b⟩ := p
    by_cases h : a = k
    · subst h; simp [dlookup, dkeys]
    · have hka : ¬ k = a := fun hh => h hh.symm
      simp [dlookup, dkeys, h, hka, ih]

theorem dlookup_append [DecidableEq K] (l₁ l₂ : List (K × V)) (k : K) :
    dlookup k (l₁ ++ l₂) = (dlookup k l₁ <|> dlookup k l₂) := by
  induction l₁ with
  | nil => simp [dlookup]
  | cons p t ih =>
    obtain ⟨a, b⟩ := p
    by_cases h : a = k <;> simp [dlookup, h, ih]

theorem dlookup_dinsert_orElse [DecidableEq K] (m : List (K × V)) (k a : K) (b : V) :
    dlookup k (dinsert m a b) = (dlookup k [(a, b)] <|> dlookup k m) := by
  by_cases h : a = k
  · subst h; simp [dlookup, dlookup_dinsert_self]
  · simp [dlookup, h, dlookup_dinsert_ne m a k b (fun hh => h hh.symm)]

theorem dfold_cons [DecidableEq K] (m : List (K × V)) (p : K × V) (l : List (K × V)) :
    dfold m (p :: l) = dfold (dinsert m p.1 p.2) l := rfl

theorem dlookup_dfold [DecidableEq K] (l m : List (K × V)) (k : K) :
    dlookup k (dfold m l) = (dlookup k l.reverse <|> dlookup k m) := by
  induction l generalizing m with
  | nil => simp [dfold, dlookup]
  | cons p t ih =>
    obtain ⟨a, b⟩ := p
    rw [dfold_cons, ih]
    simp only [List.reverse_cons, dlookup_append, dlookup_dinsert_orElse]
    cases dlookup k t.reverse <;> simp

theorem dlookup_reverse_of_nodup [DecidableEq K] (l : List (K × V)) (k : K)
    (h : (dkeys l).Nodup) : dlookup k l.reverse = dlookup k l := by
  induction l with
  | nil => simp
  | cons p t ih =>
    obtain ⟨a, b⟩ := p
    simp only [dkeys, List.map_cons, List.nodup_cons] at h
    rw [List.reverse_cons, dlookup_append]
    by_cases hk : a = k
    · subst hk
      have hnone : dlookup a t.reverse = none := by
        rw [dlookup_eq_none_iff]
        intro hmem
        exact h.1 (by simpa [dkeys] using hmem)
      simp [hnone, dlookup]
    · simp [dlookup, hk, ih h.2]

theorem mem_dkeys_dfold [DecidableEq K] (l m : List (K × V)) (a : K) :
    a ∈ dkeys (dfold m l) ↔ a ∈ dkeys m ∨ a ∈ dkeys l := by
  induction l generalizing m with
  | nil => simp [dfold, dkeys]
  | cons p t ih =>
    rw [dfold_cons, ih, dkeys_cons]
    simp only [mem_dkeys_dinsert, List.mem_cons]
    tauto

theorem dlookup_of_mem_nodup [DecidableEq K] (l : List (K × V)) (k : K) (v : V)
    (hmem : (k, v) ∈ l) (h : (dkeys l).Nodup) : dlookup k l = some v := by
  induction l with
  | nil => simp at hmem
  | cons p t ih =>
    obtain ⟨a, b⟩ := p
    simp only [dkeys, List.map_cons, List.nodup_cons] at h
    rcases List.mem_cons.mp hmem with heq | hmem'
    · cases heq; simp [dlookup]
    · have hak : a ≠ k := by
        intro hh
        subst hh
        exact h.1 (by simpa [dkeys] using List.mem_map_of_mem Prod.fst hmem')
      simp [dlookup, hak, ih hmem' h.2]

/-! ## C1 — `_merge_port_configs` -/

/-- C1: for every snapshot mapping and newly synthesized mapping (each with
the distinct keys every Python dict has), the merge contains exactly the
union of the two key sets; a key present in the new synthesis gets the new
value (full replacement), and a key present only in the snapshot passes
through with the snapshot's value unchanged. -/
theorem merge_port_configs_spec [DecidableEq K] (old new : List (K × V))
    (hold : (dkeys old).Nodup) (hnew : (dkeys new).Nodup) :
    (∀ k, k ∈ dkeys (_merge_port_configs old new) ↔ k ∈ dkeys old ∨ k ∈ dkeys new) ∧
    (∀ k v, dlookup k new = some v → dlookup k (_merge_port_configs old new) = some v) ∧
    (∀ k v, k ∉ dkeys new → dlookup k old = some v →
      dlookup k (_merge_port_configs old new) = some v) := by
  refine ⟨fun k => ?_, fun k v hv => ?_, fun k v hk hv => ?_⟩
  · rw [_merge_port_configs, mem_dkeys_dfold, mem_dkeys_dfold]
    simp [dkeys]
  · rw [_merge_port_configs, dlookup_dfold, dlookup_reverse_of_nodup new k hnew, hv]
    rfl
  · have hnone : dlookup k new = none := (dlookup_eq_none_iff new k).mpr hk
    rw [_merge_port_configs, dlookup_dfold, dlookup_reverse_of_nodup new k hnew, hnone,
      dlookup_dfold, dlookup_reverse_of_nodup old k hold, hv]
    rfl

/-- Witness for C1 at the spec's own example
`old = {P1:A, P2:B}`, `new = {P2:C, P3:D}`. -/
theorem merge_port_configs_spec_witness :
    dlookup "P1" (_merge_port_configs [("P1", "A"), ("P2", "B")] [("P2", "C"), ("P3", "D")])
        = some "A" ∧
    dlookup "P2" (_merge_port_configs [("P1", "A"), ("P2", "B")] [("P2", "C"), ("P3", "D")])
        = some "C" ∧
    "P3" ∈ dkeys (_merge_port_configs [("P1", "A"), ("P2", "B")] [("P2", "C"), ("P3", "D")]) := by
  have h := merge_port_configs_spec [("P1", "A"), ("P2", "B")] [("P2", "C"), ("P3", "D")]
    (by decide) (by decide)
  exact ⟨h.2.2 "P1" "A" (by decide) (by decide), h.2.1 "P2" "C" (by decide),
    (h.1 "P3").mpr (by decide)⟩

/-! ## takeWhile / dropWhile helpers -/

theorem takeWhile_append_all {α : Type u} (p : α → Bool) (l₁ l₂ : List α)
    (h : ∀ c ∈ l₁, p c = true) :
    (l₁ ++ l₂).takeWhile p = l₁ ++ l₂.takeWhile p := by
  induction l₁ with
  | nil => simp
  | cons a t ih =>
    have ha : p a = true := h a (List.mem_cons_self a t)
    simp only [List.cons_append, List.takeWhile_cons, ha, if_true]
    rw [ih (fun c hc => h c (List.mem_cons_of_mem a hc))]

theorem dropWhile_append_all {α : Type u} (p : α → Bool) (l₁ l₂ : List α)
    (h : ∀ c ∈ l₁, p c = true) :
    (l₁ ++ l₂).dropWhile p = l₂.dropWhile p := by
  induction l₁ with
  | nil => simp
  | cons a t ih =>
    have ha : p a = true := h a (List.mem_cons_self a t)
    simp only [List.cons_append, List.dropWhile_cons, ha, if_true]
    exact ih (fun c hc => h c (List.mem_cons_of_mem a hc))

theorem dropWhile_head_false {α : Type u} (p : α → Bool) (l : List α) (c : α)
    (ds : List α) (h : l.dropWhile p = c :: ds) : p c = false := by
  induction l with
  | nil => simp at h
  | cons a t ih =>
    by_cases ha : p a = true
    · rw [List.dropWhile_cons, if_pos ha] at h
      exact ih h
    · rw [List.dropWhile_cons, if_neg ha] at h
      cases h
      exact Bool.eq_false_iff.mpr ha

theorem mem_takeWhile_pred {α : Type u} (p : α → Bool) (l : List α) (c : α)
    (h : c ∈ l.takeWhile p) : p c = true := by
  induction l with
  | nil => simp at h
  | cons a t ih =>
    by_cases ha : p a = true
    · rw [List.takeWhile_cons, if_pos ha] at h
      rcases List.mem_cons.mp h with rfl | h'
      · exact ha
      · exact ih h'
    · rw [List.takeWhile_cons, if_neg ha] at h
      simp at h

/-! ## C8 — `get_base_port` -/

/-- C8 counterexample: the name `"a:1:2"` does end in the channel suffix
`":2"` (one ':' followed only by digits), so by the claim it should be
stripped to `"a:1"`; `get_base_port` returns it unchanged, because its regex
additionally requires the part before the suffix to be colon-free. -/
theorem get_base_port_claim_counterexample :
    "a:1:2".data = "a:1".data ++ ':' :: "2".data ∧
    "2".data ≠ [] ∧ (∀ c ∈ "2".data, c.isDigit = true) ∧
    get_base_port "a:1:2".data = "a:1:2".data ∧
    get_base_port "a:1:2".data ≠ "a:1".data := by decide

/-- C8 (amended): `get_base_port` strips the trailing `":<digits>"` suffix
exactly when the rest of the name is non-empty and itself colon-free; a name
with no colon, a name whose part after the *first* colon is empty or not all
digits, and a name starting with ':' are returned unchanged. -/
theorem get_base_port_amended (base ds s : List Char) :
    (base ≠ [] → (∀ c ∈ base, c ≠ ':') → ds ≠ [] → (∀ c ∈ ds, c.isDigit = true) →
      get_base_port (base ++ ':' :: ds) = base) ∧
    ((∀ c ∈ s, c ≠ ':') → get_base_port s = s) ∧
    ((∀ c ∈ base, c ≠ ':') → (ds = [] ∨ ¬ (∀ c ∈ ds, c.isDigit = true)) →
      get_base_port (base ++ ':' :: ds) = base ++ ':' :: ds) ∧
    (get_base_port (':' :: ds) = ':' :: ds) := by
  refine ⟨fun hb hbase hds hdig => ?_, fun hs => ?_, fun hbase hnd => ?_, ?_⟩
  · have hall : ∀ c ∈ base, (fun c => decide (c ≠ ':')) c = true := by
      intro c hc; simpa using hbase c hc
    have htake : (base ++ ':' :: ds).takeWhile (fun c => decide (c ≠ ':')) = base := by
      rw [takeWhile_append_all _ _ _ hall]; simp
    have hdrop : (base ++ ':' :: ds).dropWhile (fun c => decide (c ≠ ':')) = ':' :: ds := by
      rw [dropWhile_append_all _ _ _ hall]; simp
    have hne : base ++ ':' :: ds ≠ [] := by simp
    rw [get_base_port, if_neg hne, htake, hdrop]
    simp only [if_neg hb]
    simp [hds, List.all_eq_true.mpr hdig]
  · by_cases hnil : s = []
    · rw [get_base_port, if_pos hnil]
    · have hall : ∀ c ∈ s, (fun c => decide (c ≠ ':')) c = true := by
        intro c hc; simpa using hs c hc
      have htake : s.takeWhile (fun c => decide (c ≠ ':')) = s := by
        have h2 := takeWhile_append_all (fun c => decide (c ≠ ':')) s [] hall
        simpa using h2
      have hdrop : s.dropWhile (fun c => decide (c ≠ ':')) = [] := by
        have h2 := dropWhile_append_all (fun c => decide (c ≠ ':')) s [] hall
        simpa using h2
      rw [get_base_port, if_neg hnil, htake, hdrop]
      simp [hnil]
  · have hall : ∀ c ∈ base, (fun c => decide (c ≠ ':')) c = true := by
      intro c hc; simpa using hbase c hc
    have htake : (base ++ ':' :: ds).takeWhile (fun c => decide (c ≠ ':')) = base := by
      rw [takeWhile_append_all _ _ _ hall]; simp
    have hdrop : (base ++ ':' :: ds).dropWhile (fun c => decide (c ≠ ':')) = ':' :: ds := by
      rw [dropWhile_append_all _ _ _ hall]; simp
    have hne : base ++ ':' :: ds ≠ [] := by simp
    rw [get_base_port, if_neg hne, htake, hdrop]
    by_cases hb : base = []
    · simp [hb]
    · simp only [if_neg hb]
      rcases hnd with h | h
      · simp [h]
      · have hall' : ¬ ds.all Char.isDigit = true := fun hc => h (List.all_eq_true.mp hc)
        simp [hall']
  · have htake : (':' :: ds).takeWhile (fun c => decide (c ≠ ':')) = [] := by simp
    rw [get_base_port, if_neg (by simp), htake]
    simp

/-- Witness for C8's amended theorem at the spec's examples
(`"et-0/0/0:1"`, `"et-0/0/0"`, `"et-0/0/0:x"`). -/
theorem get_base_port_amended_witness :
    get_base_port ("et-0/0/0".data ++ ':' :: "1".data) = "et-0/0/0".data ∧
    get_base_port "et-0/0/0".data = "et-0/0/0".data ∧
    get_base_port ("et-0/0/0".data ++ ':' :: "x".data) = "et-0/0/0".data ++ ':' :: "x".data := by
  refine ⟨(get_base_port_amended "et-0/0/0".data "1".data [] ).1 (by decide) (by decide)
      (by decide) (by decide),
    (get_base_port_amended [] [] "et-0/0/0".data).2.1 (by decide),
    (get_base_port_amended "et-0/0/0".data "x".data []).2.2.1 (by decide) (by decide)⟩

/-! ## C4 — `_parse_static_routes` -/

/-- C4 counterexample: the token `"x@y"` has exactly one '@' with non-empty
halves but an invalid route prefix, so Python's `ipaddress.ip_network`
raises; the exception escapes the token loop to the `try` around it and the
remaining tokens of the field are never parsed.  The perfectly valid second
token `"10.0.0.0/24@10.0.0.1"` (which parses fine alone) is therefore lost,
contradicting the claim that a parse failure of one token never prevents the
remaining tokens of that field from being parsed. -/
theorem parse_static_routes_claim_counterexample :
    _parse_static_routes ipNetworkOkExample (some "x@y 10.0.0.0/24@10.0.0.1".data) = [] ∧
    dlookup "10.0.0.0/24".data
      (_parse_static_routes ipNetworkOkExample (some "x@y 10.0.0.0/24@10.0.0.1".data)) = none ∧
    ipNetworkOkExample "10.0.0.0/24".data = true ∧
    _parse_static_routes ipNetworkOkExample (some "10.0.0.0/24@10.0.0.1".data)
      = [("10.0.0.0/24".data, "10.0.0.1".data)] := by decide

/-- C4 (amended): a token that is empty, has no '@', or has an empty route or
next-hop half is silently skipped and never stops the loop; but a token whose
halves are non-empty while the route fails IP-network validation (the oracle
`V` standing for `ipaddress.ip_network`) aborts the loop, returning only the
entries accumulated before it — later tokens of that field are dropped.
(Other fields are unaffected: each field is parsed by its own call.) -/
theorem parse_static_routes_amended (V : List Char → Bool)
    (acc : List (List Char × List Char)) (t : List Char) (rest : List (List Char)) :
    (trimL t = [] ∨ (trimL t).contains '@' = false ∨ routeOf (trimL t) = [] ∨
        nexthopOf (trimL t) = [] →
      parseLoop V acc (t :: rest) = parseLoop V acc rest) ∧
    ((trimL t).contains '@' = true → routeOf (trimL t) ≠ [] → nexthopOf (trimL t) ≠ [] →
        V (routeOf (trimL t)) = false →
      parseLoop V acc (t :: rest) = acc) := by
  constructor
  · intro h
    by_cases h1 : trimL t = [] ∨ (trimL t).contains '@' = false
    · simp only [parseLoop, if_pos h1]
    · have h2 : routeOf (trimL t) = [] ∨ nexthopOf (trimL t) = [] := by tauto
      simp only [parseLoop, if_neg h1, if_pos h2]
  · intro hat hroute hnext hV
    have h1 : ¬ (trimL t = [] ∨ (trimL t).contains '@' = false) := by
      rintro (h | h)
      · rw [h] at hat; simp [List.contains] at hat
      · rw [h] at hat; cases hat
    have h2 : ¬ (routeOf (trimL t) = [] ∨ nexthopOf (trimL t) = []) := by tauto
    simp only [parseLoop, if_neg h1, if_neg h2, hV]
    simp

/-- Witness for C4's amended theorem: an '@'-less token is skipped without
stopping the loop, and an invalid-route token aborts with the entries so far. -/
theorem parse_static_routes_amended_witness :
    parseLoop ipNetworkOkExample [] ["junk".data, "10.0.0.0/24@10.0.0.1".data]
      = parseLoop ipNetworkOkExample [] ["10.0.0.0/24@10.0.0.1".data] ∧
    parseLoop ipNetworkOkExample [("a".data, "b".data)] ["x@y".data, "z@w".data]
      = [("a".data, "b".data)] := by
  refine ⟨(parse_static_routes_amended ipNetworkOkExample [] "junk".data
      ["10.0.0.0/24@10.0.0.1".data]).1 (by decide),
    (parse_static_routes_amended ipNetworkOkExample [("a".data, "b".data)] "x@y".data
      ["z@w".data]).2 (by decide) (by decide) (by decide) (by decide)⟩

/-! ## C3 — core-link deduplication -/

theorem linkKey_swap (e : Entry) : linkKeyOfEntry (swapEntry e) = linkKeyOfEntry e := by
  simp [linkKeyOfEntry, swapEntry, Finset.pair_comm]

theorem coreLinkStep_seen_mono (cd : List String)
    (acc : List (Finset (String × String)) × List CoreLink) (e : Entry)
    (k : Finset (String × String)) (h : k ∈ acc.1) : k ∈ (coreLinkStep cd acc e).1 := by
  unfold coreLinkStep
  split_ifs <;> simp [h]

theorem foldl_coreLinkStep_seen_mono (cd : List String) (l : List Entry)
    (acc : List (Finset (String × String)) × List CoreLink)
    (k : Finset (String × String)) (h : k ∈ acc.1) :
    k ∈ (l.foldl (coreLinkStep cd) acc).1 := by
  induction l generalizing acc with
  | nil => exact h
  | cons x t ih => exact ih _ (coreLinkStep_seen_mono cd acc x k h)

theorem coreLinkStep_seen_self (cd : List String)
    (acc : List (Finset (String × String)) × List CoreLink) (e : Entry)
    (hq : e.src_device ∈ cd ∧ e.dst_device ∈ cd) :
    linkKeyOfEntry e ∈ (coreLinkStep cd acc e).1 := by
  unfold coreLinkStep
  rw [if_pos hq]
  by_cases h : linkKeyOfEntry e ∈ acc.1
  · rw [if_pos h]; exact h
  · rw [if_neg h]; exact List.mem_cons_self _ _

theorem coreLinkStep_skip (cd : List String)
    (acc : List (Finset (String × String)) × List CoreLink) (e : Entry)
    (h : e.src_device ∈ cd ∧ e.dst_device ∈ cd → linkKeyOfEntry e ∈ acc.1) :
    coreLinkStep cd acc e = acc := by
  unfold coreLinkStep
  by_cases hq : e.src_device ∈ cd ∧ e.dst_device ∈ cd
  · rw [if_pos hq, if_pos (h hq)]
  · rw [if_neg hq]

/-- C3: deduplication of core-to-core links is by the unordered pair of
(device, port) endpoints.  (i) In any entry list, a record that repeats an
earlier record with src and dst endpoints swapped contributes nothing: the
built core-link list is the one obtained by deleting the swapped record.
(ii) Two records for the same physical core link with endpoints swapped
produce exactly one `CoreLink` (in the orientation of the first record). -/
theorem build_core_links_dedup (cd : List String) (l₁ l₂ l₃ : List Entry) (e : Entry) :
    buildCoreLinks cd (l₁ ++ e :: (l₂ ++ swapEntry e :: l₃))
      = buildCoreLinks cd (l₁ ++ e :: (l₂ ++ l₃)) ∧
    (e.src_device ∈ cd → e.dst_device ∈ cd →
      buildCoreLinks cd [e, swapEntry e]
        = [⟨e.src_device, e.src_int, e.dst_device, e.dst_int⟩]) := by
  constructor
  · unfold buildCoreLinks
    rw [List.foldl_append, List.foldl_cons, List.foldl_append, List.foldl_cons,
      List.foldl_append, List.foldl_cons, List.foldl_append]
    congr 2
    apply coreLinkStep_skip
    intro hq
    have hq' : e.src_device ∈ cd ∧ e.dst_device ∈ cd := by
      simp only [swapEntry] at hq
      exact ⟨hq.2, hq.1⟩
    rw [linkKey_swap]
    exact foldl_coreLinkStep_seen_mono cd l₂ _ _
      (coreLinkStep_seen_self cd _ e hq')
  · intro hs hd
    have hq : e.src_device ∈ cd ∧ e.dst_device ∈ cd := ⟨hs, hd⟩
    have hq' : (swapEntry e).src_device ∈ cd ∧ (swapEntry e).dst_device ∈ cd := ⟨hd, hs⟩
    have h1 : coreLinkStep cd ([], []) e
        = ([linkKeyOfEntry e], [⟨e.src_device, e.src_int, e.dst_device, e.dst_int⟩]) := by
      rw [coreLinkStep, if_pos hq, if_neg (by simp)]
      simp
    have h2 : coreLinkStep cd
        ([linkKeyOfEntry e], [⟨e.src_device, e.src_int, e.dst_device, e.dst_int⟩])
        (swapEntry e)
        = ([linkKeyOfEntry e], [⟨e.src_device, e.src_int, e.dst_device, e.dst_int⟩]) :=
      coreLinkStep_skip cd _ _ (fun _ => by rw [linkKey_swap]; exact List.mem_cons_self _ _)
    unfold buildCoreLinks
    simp only [List.foldl_cons, List.foldl_nil]
    rw [h1, h2]

/-- Witness for C3 at a concrete pair of swapped records between cores
`A` and `B`. -/
theorem build_core_links_dedup_witness :
    buildCoreLinks ["A", "B"]
      [⟨"A", "p", "B", "q", none⟩, swapEntry ⟨"A", "p", "B", "q", none⟩]
      = [⟨"A", "p", "B", "q"⟩] :=
  (build_core_links_dedup ["A", "B"] [] [] [] ⟨"A", "p", "B", "q", none⟩).2
    (by decide) (by decide)

/-! ## C6 — aggregation-group grouping and size check -/

theorem legsOf_cons_skip (roles : Roles) (e : Entry) (t : List Entry) (ae : Int)
    (h : ¬(e.ae_idx = some ae ∧
      Bool.xor (isCore roles e.src_device) (isCore roles e.dst_device) = true)) :
    legsOf roles (e :: t) ae = legsOf roles t ae := by
  have hp : (decide (e.ae_idx = some ae) &&
      Bool.xor (isCore roles e.src_device) (isCore roles e.dst_device)) = false := by
    rcases Decidable.not_and_iff_or_not.mp h with h' | h'
    · simp [h']
    · simp [Bool.eq_false_iff.mpr h', Bool.and_comm]
  simp [legsOf, List.filter_cons, hp]

theorem legsOf_cons_take (roles : Roles) (e : Entry) (t : List Entry) (ae : Int)
    (h1 : e.ae_idx = some ae)
    (h2 : Bool.xor (isCore roles e.src_device) (isCore roles e.dst_device) = true) :
    legsOf roles (e :: t) ae = e :: legsOf roles t ae := by
  simp [legsOf, List.filter_cons, h1, h2]

theorem aeGroups_loop_some (roles : Roles) (l : List Entry) :
    ∀ (g : List (Int × List Entry)) (ae : Int) (xs : List Entry),
      dlookup ae g = some xs →
      dlookup ae (l.foldl (aeGroupStep roles) g) = some (xs ++ legsOf roles l ae) := by
  induction l with
  | nil => intro g ae xs h; simp [legsOf, h]
  | cons e t ih =>
    intro g ae xs h
    rw [List.foldl_cons]
    cases hae : e.ae_idx with
    | none =>
      rw [aeGroupStep, hae]
      rw [legsOf_cons_skip roles e t ae (by simp [hae])]
      exact ih g ae xs h
    | some ae' =>
      by_cases hx : Bool.xor (isCore roles e.src_device) (isCore roles e.dst_device) = true
      · rw [aeGroupStep, hae]
        simp only [hx, if_true]
        by_cases hae' : ae' = ae
        · subst hae'
          rw [h]
          have hg' : dlookup ae' (dinsert g ae' ((some xs).getD [] ++ [e]))
              = some (xs ++ [e]) := by
            simpa using dlookup_dinsert_self g ae' (xs ++ [e])
          rw [legsOf_cons_take roles e t ae' hae hx]
          rw [ih _ ae' (xs ++ [e]) hg']
          simp
        · have hne : (ae : Int) ≠ ae' := fun hh => hae' hh.symm
          have hg' : dlookup ae (dinsert g ae' (((dlookup ae' g).getD []) ++ [e]))
              = some xs := by
            rw [dlookup_dinsert_ne _ _ _ _ hne]; exact h
          rw [legsOf_cons_skip roles e t ae (by simp [hae, hae'])]
          exact ih _ ae xs hg'
      · rw [aeGroupStep, hae]
        simp only [hx, if_false]
        rw [legsOf_cons_skip roles e t ae (fun hc => hx hc.2)]
        exact ih g ae xs h

theorem aeGroups_loop_none (roles : Roles) (l : List Entry) :
    ∀ (g : List (Int × List Entry)) (ae : Int),
      dlookup ae g = none →
      dlookup ae (l.foldl (aeGroupStep roles) g)
        = if legsOf roles l ae = [] then none else some (legsOf roles l ae) := by
  induction l with
  | nil => intro g ae h; simp [legsOf, h]
  | cons e t ih =>
    intro g ae h
    rw [List.foldl_cons]
    cases hae : e.ae_idx with
    | none =>
      rw [aeGroupStep, hae, legsOf_cons_skip roles e t ae (by simp [hae])]
      exact ih g ae h
    | some ae' =>
      by_cases hx : Bool.xor (isCore roles e.src_device) (isCore roles e.dst_device) = true
      · rw [aeGroupStep, hae]
        simp only [hx, if_true]
        by_cases hae' : ae' = ae
        · subst hae'
          rw [h]
          have hg' : dlookup ae' (dinsert g ae' ((none : Option (List Entry)).getD [] ++ [e]))
              = some [e] := by
            simpa using dlookup_dinsert_self g ae' [e]
          rw [legsOf_cons_take roles e t ae' hae hx]
          rw [aeGroups_loop_some roles t _ ae' [e] hg']
          simp
        · have hne : (ae : Int) ≠ ae' := fun hh => hae' hh.symm
          have hg' : dlookup ae (dinsert g ae' (((dlookup ae' g).getD []) ++ [e]))
              = none := by
            rw [dlookup_dinsert_ne _ _ _ _ hne]; exact h
          rw [legsOf_cons_skip roles e t ae (by simp [hae, hae'])]
          exact ih _ ae hg'
      · rw [aeGroupStep, hae]
        simp only [hx, if_false]
        rw [legsOf_cons_skip roles e t ae (fun hc => hx hc.2)]
        exact ih g ae h

/-- The `ae_groups` dict holds, for each aggregation id with a non-empty set
of qualifying legs, exactly those legs in record order; ids with no
qualifying leg are absent. -/
theorem aeGroups_lookup (roles : Roles) (entries : List Entry) (ae : Int) :
    dlookup ae (aeGroups roles entries)
      = if legsOf roles entries ae = [] then none
        else some (legsOf roles entries ae) :=
  aeGroups_loop_none roles entries [] ae rfl

theorem dinsert_nodup_keys [DecidableEq K] (m : List (K × V)) (k : K) (v : V)
    (h : (dkeys m).Nodup) : (dkeys (dinsert m k v)).Nodup := by
  induction m with
  | nil => simp [dinsert, dkeys]
  | cons p t ih =>
    obtain ⟨a, b⟩ := p
    rw [dkeys_cons, List.nodup_cons] at h
    by_cases hak : a = k
    · subst hak
      have hrw : dinsert ((a, b) :: t) a v = (a, v) :: t := by simp [dinsert]
      rw [hrw, dkeys_cons, List.nodup_cons]
      exact h
    · have hrw : dinsert ((a, b) :: t) k v = (a, b) :: dinsert t k v := by
        simp [dinsert, hak]
      rw [hrw, dkeys_cons, List.nodup_cons]
      refine ⟨fun hmem => ?_, ih h.2⟩
      rcases (mem_dkeys_dinsert t k a v).mp hmem with rfl | hmem'
      · exact hak rfl
      · exact h.1 hmem'

theorem aeGroups_nodup_keys (roles : Roles) (entries : List Entry) :
    (dkeys (aeGroups roles entries)).Nodup := by
  suffices hsuf : ∀ (l : List Entry) (g : List (Int × List Entry)),
      (dkeys g).Nodup → (dkeys (l.foldl (aeGroupStep roles) g)).Nodup by
    exact hsuf entries [] (by simp [dkeys])
  intro l
  induction l with
  | nil => intro g hg; exact hg
  | cons e t ih =>
    intro g hg
    rw [List.foldl_cons]
    apply ih
    unfold aeGroupStep
    cases e.ae_idx with
    | none => exact hg
    | some ae' =>
      by_cases hx : Bool.xor (isCore roles e.src_device) (isCore roles e.dst_device) = true
      · simpa [hx] using dinsert_nodup_keys g ae' _ hg
      · simpa [hx] using hg

theorem foldlM_except_ok_forall {σ α ε : Type} (f : σ → α → Except ε σ) (l : List α) :
    ∀ (s0 s1 : σ), l.foldlM f s0 = .ok s1 → ∀ x ∈ l, ∃ s s', f s x = .ok s' := by
  induction l with
  | nil => intro s0 s1 h x hx; simp at hx
  | cons a t ih =>
    intro s0 s1 h x hx
    rw [List.foldlM_cons] at h
    cases hfa : f s0 a with
    | error e => rw [hfa] at h; simp [Bind.bind, Except.bind] at h
    | ok s =>
      rw [hfa] at h
      have h' : t.foldlM f s = .ok s1 := by simpa [Bind.bind, Except.bind] using h
      rcases List.mem_cons.mp hx with rfl | hx'
      · exact ⟨s0, s, hfa⟩
      · exact ih s s1 h' x hx'

theorem foldlM_except_stuck {σ α ε : Type} (f : σ → α → Except ε σ) (l : List α) (x : α)
    (hx : x ∈ l) (herr : ∀ s, ∃ e, f s x = .error e) :
    ∀ (s0 s1 : σ), l.foldlM f s0 ≠ .ok s1 := by
  induction l with
  | nil => simp at hx
  | cons a t ih =>
    intro s0 s1
    rw [List.foldlM_cons]
    cases hfa : f s0 a with
    | error e => simp [Bind.bind, Except.bind]
    | ok s =>
      rcases List.mem_cons.mp hx with rfl | hx'
      · obtain ⟨e, he⟩ := herr s0
        rw [he] at hfa
        cases hfa
      · intro h
        have h' : t.foldlM f s = .ok s1 := by simpa [Bind.bind, Except.bind] using h
        exact ih hx' s s1 h'

theorem processGroup_groupSize (roles : Roles) (st : AeState) (ae : Int)
    (legs : List Entry) (h : legs.length ≠ 2) :
    processGroup roles st ae legs = .error (.groupSize ae legs.length) := by
  cases legs with
  | nil => rfl
  | cons c1 t1 =>
    cases t1 with
    | nil => rfl
    | cons c2 t2 =>
      cases t2 with
      | nil => exact absurd rfl h
      | cons c3 t3 => rfl

theorem processLeg_cases (roles : Roles) (cfg : PortCfg) (ae : Int) (c : Entry) :
    (∃ cfg', processLeg roles cfg ae c = .ok cfg') ∨
      (∃ d p, processLeg roles cfg ae c = .error (.portConflict d p)) := by
  unfold processLeg
  split_ifs
  · exact Or.inr ⟨_, _, rfl⟩
  · exact Or.inl ⟨_, rfl⟩

theorem processGroup_pair_eq (roles : Roles) (st : AeState) (ae : Int) (c1 c2 : Entry) :
    processGroup roles st ae [c1, c2]
      = Except.bind (processLeg roles st.core ae c1) (fun cfg1 =>
          Except.bind (processLeg roles cfg1 ae c2) (fun cfg2 =>
            Except.ok ⟨cfg2, dinsert st.access (accessDevOf roles c2)
              [(portKeyOf roles c1 c2, accessBundleEntry ae)]⟩)) := rfl

theorem processGroup_pair_not_groupSize (roles : Roles) (st : AeState) (ae : Int)
    (c1 c2 : Entry) (ae' : Int) (n : Nat) :
    processGroup roles st ae [c1, c2] ≠ .error (.groupSize ae' n) := by
  rw [processGroup_pair_eq]
  rcases processLeg_cases roles st.core ae c1 with ⟨cfg1, h1⟩ | ⟨d, p, h1⟩
  · rw [h1]
    show Except.bind (Except.ok cfg1) _ ≠ _
    have hb : ∀ f : PortCfg → Except TopoErr AeState,
        Except.bind (Except.ok cfg1) f = f cfg1 := fun f => rfl
    rw [hb]
    show Except.bind (processLeg roles cfg1 ae c2) _ ≠ _
    rcases processLeg_cases roles cfg1 ae c2 with ⟨cfg2, h2⟩ | ⟨d, p, h2⟩
    · rw [h2]
      intro h
      exact Except.noConfusion h
    · rw [h2]
      intro h
      injection h with h'
      exact TopoErr.noConfusion h'
  · rw [h1]
    intro h
    injection h with h'
    exact TopoErr.noConfusion h'

/-- C6: qualifying legs (non-empty aggregation id, exactly one core endpoint)
are grouped by aggregation id; an id with no qualifying leg is absent from
the grouping (ignored without error); a group whose leg count is 1 or ≥ 3
fails with `AggregationGroupSizeError` (and so does the whole phase), while a
group of exactly 2 legs never produces that error. -/
theorem aggregation_group_size_spec (roles : Roles) (cd : List String)
    (entries : List Entry) :
    (∀ ae : Int, dlookup ae (aeGroups roles entries)
        = if legsOf roles entries ae = [] then none
          else some (legsOf roles entries ae)) ∧
    (∀ (st : AeState) (ae : Int) (legs : List Entry),
        legs.length = 1 ∨ 3 ≤ legs.length →
        processGroup roles st ae legs = .error (.groupSize ae legs.length)) ∧
    (∀ (st : AeState) (ae : Int) (c1 c2 : Entry) (ae' : Int) (n : Nat),
        processGroup roles st ae [c1, c2] ≠ .error (.groupSize ae' n)) ∧
    (∀ st : AeState, buildAe roles cd entries = .ok st →
        ∀ (ae : Int) (legs : List Entry),
          (ae, legs) ∈ aeGroups roles entries → legs.length = 2) ∧
    (∀ (ae : Int) (legs : List Entry), (ae, legs) ∈ aeGroups roles entries →
        legs.length ≠ 2 → ∀ st : AeState, buildAe roles cd entries ≠ .ok st) := by
  refine ⟨aeGroups_lookup roles entries, fun st ae legs h => ?_, fun st ae c1 c2 ae' n =>
    processGroup_pair_not_groupSize roles st ae c1 c2 ae' n, fun st hok ae legs hmem => ?_,
    fun ae legs hmem hlen st => ?_⟩
  · apply processGroup_groupSize
    omega
  · obtain ⟨s, s', hss⟩ := foldlM_except_ok_forall _ _ _ _ hok (ae, legs) hmem
    by_contra hlen
    rw [processGroup_groupSize roles s ae legs hlen] at hss
    cases hss
  · exact foldlM_except_stuck _ _ (ae, legs) hmem
      (fun s => ⟨_, processGroup_groupSize roles s ae legs hlen⟩) _ st

/-- Witness for C6: the single-leg group `ae = 5` makes the group phase fail
with the size error, and the whole phase cannot succeed. -/
theorem aggregation_group_size_spec_witness :
    processGroup [("A", "collapsed-core"), ("X", "access")]
        ⟨initCoreCfg ["A"], []⟩ 5 [⟨"A", "p", "X", "q", some 5⟩]
      = .error (.groupSize 5 1) ∧
    buildAe [("A", "collapsed-core"), ("X", "access")] ["A"]
        [⟨"A", "p", "X", "q", some 5⟩]
      ≠ .ok ⟨initCoreCfg ["A"], []⟩ := by
  have h := aggregation_group_size_spec [("A", "collapsed-core"), ("X", "access")] ["A"]
    [⟨"A", "p", "X", "q", some 5⟩]
  exact ⟨h.2.1 ⟨initCoreCfg ["A"], []⟩ 5 [⟨"A", "p", "X", "q", some 5⟩] (Or.inl rfl),
    h.2.2.2.2 5 [⟨"A", "p", "X", "q", some 5⟩] (by decide) (by decide) ⟨initCoreCfg ["A"], []⟩⟩

/-! ## C9 — access-side bundle: one entry per device, last group wins -/

theorem except_bind_ok {ε σ τ : Type} (x : σ) (f : σ → Except ε τ) :
    Except.bind (Except.ok x) f = f x := rfl

theorem except_bind_error {ε σ τ : Type} (e : ε) (f : σ → Except ε τ) :
    Except.bind (Except.error e) f = Except.error e := rfl

theorem getLast?_cons_orElse {α : Type u} (a : α) (l : List α) :
    (a :: l).getLast? = (l.getLast? <|> some a) := by
  cases l with
  | nil => simp
  | cons b t =>
    have hs : (b :: t).getLast?.isSome := by
      rw [List.getLast?_isSome]; simp
    obtain ⟨x, hx⟩ := Option.isSome_iff_exists.mp hs
    rw [List.getLast?_cons_cons, hx]
    simp

theorem processGroup_ok_access (roles : Roles) (st : AeState) (ae : Int)
    (conns : List Entry) (st' : AeState)
    (h : processGroup roles st ae conns = .ok st') :
    ∃ c1 c2, conns = [c1, c2] ∧
      st'.access = dinsert st.access (accessDevOf roles c2) (bundleOf roles ae c1 c2) := by
  cases conns with
  | nil =>
    rw [processGroup_groupSize roles st ae [] (by simp)] at h
    exact Except.noConfusion h
  | cons c1 t1 =>
    cases t1 with
    | nil =>
      rw [processGroup_groupSize roles st ae [c1] (by simp)] at h
      exact Except.noConfusion h
    | cons c2 t2 =>
      cases t2 with
      | cons c3 t3 =>
        rw [processGroup_groupSize roles st ae (c1 :: c2 :: c3 :: t3)
          (by simp [List.length_cons])] at h
        exact Except.noConfusion h
      | nil =>
        refine ⟨c1, c2, rfl, ?_⟩
        rw [processGroup_pair_eq] at h
        rcases processLeg_cases roles st.core ae c1 with ⟨cfg1, h1⟩ | ⟨d, p, h1⟩
        · rw [h1] at h
          simp only [except_bind_ok] at h
          rcases processLeg_cases roles cfg1 ae c2 with ⟨cfg2, h2⟩ | ⟨d, p, h2⟩
          · rw [h2] at h
            simp only [except_bind_ok] at h
            injection h with h'
            rw [← h']
            rfl
          · rw [h2, except_bind_error] at h
            exact Except.noConfusion h
        · rw [h1, except_bind_error] at h
          exact Except.noConfusion h

theorem buildAe_loop_access (roles : Roles) (gs : List (Int × List Entry)) :
    ∀ (st0 st1 : AeState),
      gs.foldlM (fun st p => processGroup roles st p.1 p.2) st0 = .ok st1 →
      st1.access = (groupPairs gs).foldl
        (fun m g => dinsert m (accessDevOf roles g.2.2) (bundleOf roles g.1 g.2.1 g.2.2))
        st0.access := by
  induction gs with
  | nil =>
    intro st0 st1 h
    rw [List.foldlM_nil] at h
    injection h with h'
    rw [← h']
    simp [groupPairs]
  | cons g gs ih =>
    intro st0 st1 h
    rw [List.foldlM_cons] at h
    cases hpg : processGroup roles st0 g.1 g.2 with
    | error e =>
      rw [hpg] at h
      exact absurd h (by simp [Bind.bind, Except.bind])
    | ok st' =>
      rw [hpg] at h
      have h' : gs.foldlM (fun st p => processGroup roles st p.1 p.2) st' = .ok st1 := by
        simpa [Bind.bind, Except.bind] using h
      obtain ⟨c1, c2, hshape, hacc⟩ := processGroup_ok_access roles st0 g.1 g.2 st' hpg
      obtain ⟨ga, gl⟩ := g
      simp only at hshape hacc
      subst hshape
      have hgp : groupPairs ((ga, [c1, c2]) :: gs) = (ga, c1, c2) :: groupPairs gs := by
        simp [groupPairs]
      rw [hgp, List.foldl_cons, ih st' st1 h']
      simp only
      rw [hacc]

theorem dlookup_foldl_dinsert_last {α : Type u} [DecidableEq K]
    (keyOf : α → K) (valOf : α → V) (L : List α) :
    ∀ (m0 : List (K × V)) (dev : K),
      dlookup dev (L.foldl (fun m g => dinsert m (keyOf g) (valOf g)) m0)
        = (((L.filter (fun g => decide (keyOf g = dev))).getLast?).map valOf
            <|> dlookup dev m0) := by
  induction L with
  | nil => intro m0 dev; simp
  | cons g t ih =>
    intro m0 dev
    rw [List.foldl_cons, ih]
    by_cases h : keyOf g = dev
    · subst h
      rw [List.filter_cons_of_pos (by simp), getLast?_cons_orElse, dlookup_dinsert_self]
      cases hgl : (t.filter (fun g' => decide (keyOf g' = keyOf g))).getLast? <;> simp [hgl]
    · rw [List.filter_cons_of_neg (by simp [h]),
        dlookup_dinsert_ne _ _ _ _ (fun hh => h hh.symm)]

/-- C9: when the aggregation phase succeeds, each access device's entry in the
synthesized access-side port-configuration map is exactly the one-entry
bundle dict of the *last* group (in dict order) whose access side is that
device — bundles of earlier groups for the same device are silently
discarded, and every stored value has exactly one entry. -/
theorem access_bundle_last_wins (roles : Roles) (cd : List String)
    (entries : List Entry) (st : AeState)
    (h : buildAe roles cd entries = .ok st) :
    (∀ dev : String,
      dlookup dev st.access
        = ((groupPairs (aeGroups roles entries)).filter
            (fun g => decide (accessDevOf roles g.2.2 = dev))).getLast?.map
              (fun g => bundleOf roles g.1 g.2.1 g.2.2)) ∧
    (∀ (dev : String) (v : List (String × PortEntry)),
      dlookup dev st.access = some v → v.length = 1) := by
  have h0 : (aeGroups roles entries).foldlM
      (fun st p => processGroup roles st p.1 p.2) ⟨initCoreCfg cd, []⟩ = .ok st := h
  have hacc := buildAe_loop_access roles (aeGroups roles entries) ⟨initCoreCfg cd, []⟩ st h0
  have h1 : ∀ dev : String,
      dlookup dev st.access
        = ((groupPairs (aeGroups roles entries)).filter
            (fun g => decide (accessDevOf roles g.2.2 = dev))).getLast?.map
              (fun g => bundleOf roles g.1 g.2.1 g.2.2) := by
    intro dev
    rw [hacc, dlookup_foldl_dinsert_last]
    simp [dlookup]
  refine ⟨h1, fun dev v hv => ?_⟩
  rw [h1 dev] at hv
  obtain ⟨g, hg, hgv⟩ := Option.map_eq_some'.mp hv
  rw [← hgv]
  simp [bundleOf]

/-- Witness for C9: access device `X` is the access side of groups 1 and 2;
only group 2's bundle (ports `xc,xd`) survives, with exactly one entry, and
the phase succeeds. -/
theorem access_bundle_last_wins_witness :
    dlookup "X" (AeState.access
      ⟨[("A", [("p1", esiLagEntry 1), ("p3", esiLagEntry 2)]),
        ("B", [("p2", esiLagEntry 1), ("p4", esiLagEntry 2)])],
       [("X", [("xc,xd", accessBundleEntry 2)])]⟩)
      = some [("xc,xd", accessBundleEntry 2)] := by
  have h := (access_bundle_last_wins
    [("A", "collapsed-core"), ("B", "collapsed-core"), ("X", "access")] ["A", "B"]
    [⟨"A", "p1", "X", "xa", some 1⟩, ⟨"B", "p2", "X", "xb", some 1⟩,
     ⟨"A", "p3", "X", "xc", some 2⟩, ⟨"B", "p4", "X", "xd", some 2⟩]
    ⟨[("A", [("p1", esiLagEntry 1), ("p3", esiLagEntry 2)]),
      ("B", [("p2", esiLagEntry 1), ("p4", esiLagEntry 2)])],
     [("X", [("xc,xd", accessBundleEntry 2)])]⟩
    rfl).1 "X"
  rw [h]
  decide

/-! ## C2 / C10 — core-link numbering loop -/

theorem dlookup2_dinsert2_self (cfg : PortCfg) (d p : String) (e : PortEntry) :
    dlookup2 (dinsert2 cfg d p e) d p = some e := by
  unfold dlookup2 dinsert2
  rw [dlookup_dinsert_self]
  simp [dlookup_dinsert_self]

theorem dlookup2_dinsert2_ne (cfg : PortCfg) (d p d' p' : String) (e : PortEntry)
    (h : (d', p') ≠ (d, p)) :
    dlookup2 (dinsert2 cfg d p e) d' p' = dlookup2 cfg d' p' := by
  unfold dlookup2 dinsert2
  by_cases hd : d' = d
  · subst hd
    have hp : p' ≠ p := fun hp => h (by rw [hp])
    have hpp : ¬ p = p' := fun hh => hp hh.symm
    rw [dlookup_dinsert_self]
    cases hm : dlookup d' cfg with
    | none => simp [hm, dinsert, dlookup, hpp]
    | some m => simp [hm, dlookup_dinsert_ne _ _ _ _ hp]
  · rw [dlookup_dinsert_ne _ _ _ _ hd]

theorem linkAssign_c2 (cfg : PortCfg) (i : Nat) (l : CoreLink) :
    dlookup2 (linkAssign cfg i l) l.core2 l.port2
      = some (linkUsageEntry (if i % 2 = 1 then "evpn_uplink" else "evpn_downlink") i) := by
  unfold linkAssign
  by_cases hi : i % 2 = 1 <;> simp [hi, dlookup2_dinsert2_self]

theorem linkAssign_c1 (cfg : PortCfg) (i : Nat) (l : CoreLink)
    (hne : (l.core1, l.port1) ≠ (l.core2, l.port2)) :
    dlookup2 (linkAssign cfg i l) l.core1 l.port1
      = some (linkUsageEntry (if i % 2 = 1 then "evpn_downlink" else "evpn_uplink") i) := by
  unfold linkAssign
  by_cases hi : i % 2 = 1 <;>
    simp [hi, dlookup2_dinsert2_ne _ _ _ _ _ _ hne, dlookup2_dinsert2_self]

theorem linkAssign_other (cfg : PortCfg) (i : Nat) (l : CoreLink) (d p : String)
    (h1 : (d, p) ≠ (l.core1, l.port1)) (h2 : (d, p) ≠ (l.core2, l.port2)) :
    dlookup2 (linkAssign cfg i l) d p = dlookup2 cfg d p := by
  unfold linkAssign
  by_cases hi : i % 2 = 1 <;>
    simp [hi, dlookup2_dinsert2_ne _ _ _ _ _ _ h1, dlookup2_dinsert2_ne _ _ _ _ _ _ h2]

theorem coreLinkLoop_preserve (ls : List CoreLink) :
    ∀ (cfg : PortCfg) (i : Nat) (d p : String), (d, p) ∉ endpointsOf ls →
      dlookup2 (coreLinkLoop cfg i ls) d p = dlookup2 cfg d p := by
  induction ls with
  | nil => intro cfg i d p _; rfl
  | cons l t ih =>
    intro cfg i d p h
    rw [endpointsOf] at h
    simp only [List.mem_cons] at h
    push_neg at h
    obtain ⟨h1, h2, h3⟩ := h
    show dlookup2 (coreLinkLoop (linkAssign cfg i l) (i + 1) t) d p = dlookup2 cfg d p
    rw [ih _ _ _ _ h3]
    exact linkAssign_other cfg i l d p h1 h2

theorem coreLinkLoop_assigns (ls : List CoreLink) (hnd : (endpointsOf ls).Nodup) :
    ∀ (cfg : PortCfg) (i j : Nat) (l : CoreLink), ls[j]? = some l →
      dlookup2 (coreLinkLoop cfg i ls) l.core1 l.port1
        = some (linkUsageEntry
            (if (i + j) % 2 = 1 then "evpn_downlink" else "evpn_uplink") (i + j)) ∧
      dlookup2 (coreLinkLoop cfg i ls) l.core2 l.port2
        = some (linkUsageEntry
            (if (i + j) % 2 = 1 then "evpn_uplink" else "evpn_downlink") (i + j)) := by
  induction ls with
  | nil => intro cfg i j l hj; simp at hj
  | cons l0 t ih =>
    rw [endpointsOf, List.nodup_cons, List.nodup_cons] at hnd
    obtain ⟨h1, h2, h3⟩ := hnd
    intro cfg i j l hj
    cases j with
    | zero =>
      rw [List.getElem?_cons_zero] at hj
      injection hj with hj
      subst hj
      have hne : (l0.core1, l0.port1) ≠ (l0.core2, l0.port2) := by
        intro hh
        exact h1 (by rw [hh]; exact List.mem_cons_self _ _)
      have hnot1 : (l0.core1, l0.port1) ∉ endpointsOf t := fun hmem =>
        h1 (List.mem_cons_of_mem _ hmem)
      rw [show coreLinkLoop cfg i (l0 :: t) = coreLinkLoop (linkAssign cfg i l0) (i + 1) t
          from rfl]
      rw [coreLinkLoop_preserve t _ _ _ _ hnot1, coreLinkLoop_preserve t _ _ _ _ h2]
      simp only [Nat.add_zero]
      exact ⟨linkAssign_c1 cfg i l0 hne, linkAssign_c2 cfg i l0⟩
    | succ j' =>
      rw [List.getElem?_cons_succ] at hj
      have hres := ih h3 (linkAssign cfg i l0) (i + 1) j' l hj
      rw [show coreLinkLoop cfg i (l0 :: t) = coreLinkLoop (linkAssign cfg i l0) (i + 1) t
          from rfl]
      have harith : i + 1 + j' = i + (j' + 1) := by omega
      rw [harith] at hres
      exact hres

/-- C2: in the core-link numbering loop, after sorting by
(core1, core2, port1, port2) and numbering from 1, the link at 1-based index
i with i odd gives core1's port usage "evpn_downlink" and core2's port
"evpn_uplink", and with i even the swapped usages — provided the links'
endpoints are pairwise distinct ports (as deduplicated physical links have),
so that no later link overwrites an earlier one's entry. -/
theorem core_link_alternation (links : List CoreLink) (cfg0 : PortCfg)
    (hnd : (endpointsOf (sortLinks links)).Nodup) (j : Nat) (l : CoreLink)
    (hj : (sortLinks links)[j]? = some l) :
    ((j + 1) % 2 = 1 →
      dlookup2 (coreLinkStage cfg0 links) l.core1 l.port1
        = some (linkUsageEntry "evpn_downlink" (j + 1)) ∧
      dlookup2 (coreLinkStage cfg0 links) l.core2 l.port2
        = some (linkUsageEntry "evpn_uplink" (j + 1))) ∧
    ((j + 1) % 2 = 0 →
      dlookup2 (coreLinkStage cfg0 links) l.core1 l.port1
        = some (linkUsageEntry "evpn_uplink" (j + 1)) ∧
      dlookup2 (coreLinkStage cfg0 links) l.core2 l.port2
        = some (linkUsageEntry "evpn_downlink" (j + 1))) := by
  have h := coreLinkLoop_assigns (sortLinks links) hnd cfg0 1 j l hj
  rw [show (1 : Nat) + j = j + 1 from Nat.add_comm 1 j] at h
  have hstage : coreLinkStage cfg0 links = coreLinkLoop cfg0 1 (sortLinks links) := rfl
  rw [hstage]
  constructor
  · intro hodd
    simp only [if_pos hodd] at h
    exact h
  · intro heven
    have hne : ¬ (j + 1) % 2 = 1 := by omega
    simp only [if_neg hne] at h
    exact h

/-- Witness for C2 with three parallel links between cores A and B (already
in sorted order): link 1 and 3 give core1 downlink, link 2 gives core1
uplink. -/
theorem core_link_alternation_witness :
    (dlookup2 (coreLinkStage []
        [⟨"A", "p1", "B", "q1"⟩, ⟨"A", "p2", "B", "q2"⟩, ⟨"A", "p3", "B", "q3"⟩])
      "A" "p1" = some (linkUsageEntry "evpn_downlink" 1) ∧
     dlookup2 (coreLinkStage []
        [⟨"A", "p1", "B", "q1"⟩, ⟨"A", "p2", "B", "q2"⟩, ⟨"A", "p3", "B", "q3"⟩])
      "B" "q1" = some (linkUsageEntry "evpn_uplink" 1)) ∧
    (dlookup2 (coreLinkStage []
        [⟨"A", "p1", "B", "q1"⟩, ⟨"A", "p2", "B", "q2"⟩, ⟨"A", "p3", "B", "q3"⟩])
      "A" "p2" = some (linkUsageEntry "evpn_uplink" 2) ∧
     dlookup2 (coreLinkStage []
        [⟨"A", "p1", "B", "q1"⟩, ⟨"A", "p2", "B", "q2"⟩, ⟨"A", "p3", "B", "q3"⟩])
      "B" "q2" = some (linkUsageEntry "evpn_downlink" 2)) := by
  refine ⟨(core_link_alternation
      [⟨"A", "p1", "B", "q1"⟩, ⟨"A", "p2", "B", "q2"⟩, ⟨"A", "p3", "B", "q3"⟩] []
      (by decide) 0 ⟨"A", "p1", "B", "q1"⟩ (by decide)).1 (by decide),
    (core_link_alternation
      [⟨"A", "p1", "B", "q1"⟩, ⟨"A", "p2", "B", "q2"⟩, ⟨"A", "p3", "B", "q3"⟩] []
      (by decide) 1 ⟨"A", "p2", "B", "q2"⟩ (by decide)).2 (by decide)⟩

theorem coreLinkLoop_endpoint_usage (ls : List CoreLink) :
    ∀ (cfg : PortCfg) (i : Nat) (d p : String), (d, p) ∈ endpointsOf ls →
      ∃ en, dlookup2 (coreLinkLoop cfg i ls) d p = some en ∧
        (en.usage = "evpn_uplink" ∨ en.usage = "evpn_downlink") := by
  induction ls with
  | nil => intro cfg i d p h; rw [endpointsOf] at h; cases h
  | cons l t ih =>
    intro cfg i d p h
    rw [show coreLinkLoop cfg i (l :: t) = coreLinkLoop (linkAssign cfg i l) (i + 1) t
        from rfl]
    by_cases ht : (d, p) ∈ endpointsOf t
    · exact ih _ _ _ _ ht
    · rw [endpointsOf] at h
      rcases List.mem_cons.mp h with h1 | h'
      · rw [coreLinkLoop_preserve t _ _ _ _ ht]
        by_cases h2 : (d, p) = (l.core2, l.port2)
        · obtain ⟨hd, hp⟩ := Prod.mk.injEq .. ▸ h2
          subst hd; subst hp
          refine ⟨_, linkAssign_c2 cfg i l, ?_⟩
          by_cases hi : i % 2 = 1 <;> simp [hi, linkUsageEntry]
        · obtain ⟨hd, hp⟩ := Prod.mk.injEq .. ▸ h1
          subst hd; subst hp
          have hne : ((l.core1 : String), (l.port1 : String)) ≠ (l.core2, l.port2) := h2
          refine ⟨_, linkAssign_c1 cfg i l hne, ?_⟩
          by_cases hi : i % 2 = 1 <;> simp [hi, linkUsageEntry]
      · rcases List.mem_cons.mp h' with h2 | h3
        · rw [coreLinkLoop_preserve t _ _ _ _ ht]
          obtain ⟨hd, hp⟩ := Prod.mk.injEq .. ▸ h2
          subst hd; subst hp
          refine ⟨_, linkAssign_c2 cfg i l, ?_⟩
          by_cases hi : i % 2 = 1 <;> simp [hi, linkUsageEntry]
        · exact absurd h3 ht

/-- C10: if the aggregation phase succeeds (and ≥ 2 core devices exist),
`_build_topology` succeeds as a whole — reusing a core port both as an
aggregation leg and as a core-link endpoint raises no `PortConflictError` —
and every endpoint of a deduplicated core link ends up with an
"evpn_uplink"/"evpn_downlink" entry in the final core port-configuration:
the core-link write silently replaces any ESI-LAG entry on that port. -/
theorem core_link_overwrites_esilag (entries : List Entry) (roles : Roles) (st : AeState)
    (hcore : ¬ (sortedCoreDevices roles).length < 2)
    (hae : buildAe roles (sortedCoreDevices roles) entries = .ok st) :
    _build_topology entries roles
      = .ok (buildCoreLinks (sortedCoreDevices roles) entries,
          coreLinkStage st.core (buildCoreLinks (sortedCoreDevices roles) entries),
          st.access) ∧
    ∀ (d p : String),
      (d, p) ∈ endpointsOf (sortLinks (buildCoreLinks (sortedCoreDevices roles) entries)) →
      ∃ en, dlookup2
          (coreLinkStage st.core (buildCoreLinks (sortedCoreDevices roles) entries)) d p
          = some en ∧
        (en.usage = "evpn_uplink" ∨ en.usage = "evpn_downlink") := by
  constructor
  · rw [_build_topology, if_neg hcore, hae, except_bind_ok]
  · intro d p hmem
    exact coreLinkLoop_endpoint_usage
      (sortLinks (buildCoreLinks (sortedCoreDevices roles) entries)) st.core 1 d p hmem

/-- Witness for C10: core port (A, p) is both the core leg of aggregation
group 7 and an endpoint of the core link A–B; synthesis succeeds and the
port's final entry carries a core-link usage, not the ESI-LAG one. -/
theorem core_link_overwrites_esilag_witness :
    _build_topology
        [⟨"A", "p", "X", "xa", some 7⟩, ⟨"B", "r", "X", "xb", some 7⟩,
         ⟨"A", "p", "B", "q", none⟩]
        [("A", "collapsed-core"), ("B", "collapsed-core"), ("X", "access")]
      = .ok ([⟨"A", "p", "B", "q"⟩],
          coreLinkStage
            (AeState.core ⟨[("A", [("p", esiLagEntry 7)]), ("B", [("r", esiLagEntry 7)])],
              [("X", [("xa,xb", accessBundleEntry 7)])]⟩)
            [⟨"A", "p", "B", "q"⟩],
          [("X", [("xa,xb", accessBundleEntry 7)])]) ∧
    ∃ en, dlookup2
        (coreLinkStage
          (AeState.core ⟨[("A", [("p", esiLagEntry 7)]), ("B", [("r", esiLagEntry 7)])],
            [("X", [("xa,xb", accessBundleEntry 7)])]⟩)
          [⟨"A", "p", "B", "q"⟩]) "A" "p"
        = some en ∧
      (en.usage = "evpn_uplink" ∨ en.usage = "evpn_downlink") := by
  have h := core_link_overwrites_esilag
    [⟨"A", "p", "X", "xa", some 7⟩, ⟨"B", "r", "X", "xb", some 7⟩,
     ⟨"A", "p", "B", "q", none⟩]
    [("A", "collapsed-core"), ("B", "collapsed-core"), ("X", "access")]
    ⟨[("A", [("p", esiLagEntry 7)]), ("B", [("r", esiLagEntry 7)])],
     [("X", [("xa,xb", accessBundleEntry 7)])]⟩
    (by decide) rfl
  exact ⟨h.1, h.2 "A" "p" (by decide)⟩

/-! ## C7 — core-device ordering and IP offsets -/

theorem strLtb_asymm : ∀ (x y : List Char), strLtb x y = true → strLtb y x = false := by
  intro x
  induction x with
  | nil =>
    intro y h
    cases y with
    | nil => simp [strLtb] at h
    | cons b t => simp [strLtb]
  | cons a s ih =>
    intro y h
    cases y with
    | nil => simp [strLtb] at h
    | cons b t =>
      simp only [strLtb] at h ⊢
      by_cases h1 : a.toNat < b.toNat
      · simp [h1, show ¬ b.toNat < a.toNat by omega]
      · by_cases h2 : b.toNat < a.toNat
        · simp [h1, h2] at h
        · simp only [h1, h2, if_false] at h ⊢
          exact ih t h

theorem strLtb_conn : ∀ (x y : List Char),
    strLtb x y = false → strLtb y x = false → x = y := by
  intro x
  induction x with
  | nil =>
    intro y h1 h2
    cases y with
    | nil => rfl
    | cons b t => simp [strLtb] at h1
  | cons a s ih =>
    intro y h1 h2
    cases y with
    | nil => simp [strLtb] at h2
    | cons b t =>
      simp only [strLtb] at h1 h2
      by_cases hab : a.toNat < b.toNat
      · simp [hab] at h1
      · by_cases hba : b.toNat < a.toNat
        · simp [hab, hba] at h2
        · simp only [hab, hba, if_false] at h1 h2
          have hnat : a.toNat = b.toNat := by omega
          have heq : a = b := Char.ext (UInt32.ext hnat)
          rw [heq, ih t h1 h2]

theorem strLtb_trans : ∀ (x y z : List Char),
    strLtb x y = true → strLtb y z = true → strLtb x z = true := by
  intro x
  induction x with
  | nil =>
    intro y z h1 h2
    cases y with
    | nil => simp [strLtb] at h1
    | cons b t =>
      cases z with
      | nil => simp [strLtb] at h2
      | cons c u => simp [strLtb]
  | cons a s ih =>
    intro y z h1 h2
    cases y with
    | nil => simp [strLtb] at h1
    | cons b t =>
      cases z with
      | nil => simp [strLtb] at h2
      | cons c u =>
        simp only [strLtb] at h1 h2 ⊢
        by_cases hab : a.toNat < b.toNat <;> by_cases hbc : b.toNat < c.toNat
        · simp [show a.toNat < c.toNat by omega]
        · by_cases hcb : c.toNat < b.toNat
          · simp [hbc, hcb] at h2
          · simp [show a.toNat < c.toNat by omega]
        · by_cases hba : b.toNat < a.toNat
          · simp [hab, hba] at h1
          · simp [show a.toNat < c.toNat by omega]
        · by_cases hba : b.toNat < a.toNat
          · simp [hab, hba] at h1
          · by_cases hcb : c.toNat < b.toNat
            · simp [hbc, hcb] at h2
            · simp only [hab, hba, if_false] at h1
              simp only [hbc, hcb, if_false] at h2
              simp only [show ¬ a.toNat < c.toNat by omega,
                show ¬ c.toNat < a.toNat by omega, if_false]
              exact ih t u h1 h2

theorem strLtb_iff_lex : ∀ (x y : List Char),
    strLtb x y = true ↔ List.Lex (· < ·) x y := by
  intro x
  induction x with
  | nil =>
    intro y
    cases y with
    | nil =>
      constructor
      · intro h; simp [strLtb] at h
      · intro h; cases h
    | cons b t =>
      constructor
      · intro _; exact List.Lex.nil
      · intro _; rfl
  | cons a s ih =>
    intro y
    cases y with
    | nil =>
      constructor
      · intro h; simp [strLtb] at h
      · intro h; cases h
    | cons b t =>
      simp only [strLtb]
      by_cases hab : a.toNat < b.toNat
      · simp only [hab, if_true, true_iff]
        exact List.Lex.rel hab
      · by_cases hba : b.toNat < a.toNat
        · simp only [hab, hba, if_true, if_false, Bool.false_eq_true, false_iff]
          intro h
          cases h with
          | rel h' => exact hab h'
          | cons h3 => exact absurd hba (Nat.lt_irrefl _)
        · have hnat : a.toNat = b.toNat := by omega
          have heq : a = b := Char.ext (UInt32.ext hnat)
          subst heq
          simp only [hab, hba, if_false]
          constructor
          · intro h
            exact List.Lex.cons ((ih t).mp h)
          · intro h
            cases h with
            | rel h' =>
              have hnat : a.toNat < a.toNat := h'
              omega
            | cons h3 => exact (ih t).mpr h3

/-- The embedded Python string order coincides with Lean's lexicographic
`≤` on `String`. -/
theorem pyStrLe_iff_le (a b : String) : pyStrLe a b ↔ a ≤ b := by
  rw [String.le_iff_toList_le, ← not_lt]
  constructor
  · intro h hlt
    have hlex : List.Lex (· < ·) b.data a.data := hlt
    have hb : strLtb b.data a.data = true := (strLtb_iff_lex b.data a.data).mpr hlex
    have h' : strLtb b.data a.data = false := h
    rw [hb] at h'
    cases h'
  · intro h
    cases hb : strLtb b.data a.data with
    | false => exact hb
    | true =>
      exact absurd (show b.toList < a.toList from (strLtb_iff_lex b.data a.data).mp hb) h

instance : IsTotal String pyStrLe :=
  ⟨fun a b => by
    cases h : strLtb b.data a.data with
    | false => exact Or.inl h
    | true => exact Or.inr (strLtb_asymm b.data a.data h)⟩

instance : IsTrans String pyStrLe :=
  ⟨fun a b c hab hbc => by
    unfold pyStrLe at hab hbc ⊢
    cases hca : strLtb c.data a.data with
    | false => rfl
    | true =>
      cases hbc2 : strLtb b.data c.data with
      | true =>
        rw [strLtb_trans b.data c.data a.data hbc2 hca] at hab
        cases hab
      | false =>
        rw [strLtb_conn c.data b.data hbc hbc2] at hca
        rw [hca] at hab
        cases hab⟩

/-- C7: the core devices are ordered lexicographically by name — the sorted
list is ordered by the code-point string order (equivalently Lean's `≤` on
`String`, see `pyStrLe_iff_le`) and is a permutation of the collapsed-core
device names — and the first device of that order receives IP offset 1, the
second offset 2, in the `core_offsets` dict of `create_fabric`. -/
theorem core_device_order_offsets (roles : Roles) (hnd : (dkeys roles).Nodup) :
    List.Sorted pyStrLe (sortedCoreDevices roles) ∧
    List.Perm (sortedCoreDevices roles) (coreDeviceNames roles) ∧
    (∀ (a b : String) (t : List String), sortedCoreDevices roles = a :: b :: t →
      dlookup a (core_offsets (sortedCoreDevices roles)) = some 1 ∧
      dlookup b (core_offsets (sortedCoreDevices roles)) = some 2) := by
  have hsorted : List.Sorted pyStrLe (sortedCoreDevices roles) :=
    List.sorted_insertionSort pyStrLe (coreDeviceNames roles)
  have hperm : List.Perm (sortedCoreDevices roles) (coreDeviceNames roles) :=
    List.perm_insertionSort pyStrLe (coreDeviceNames roles)
  refine ⟨hsorted, hperm, fun a b t hlist => ?_⟩
  have hnames : (coreDeviceNames roles).Nodup := by
    have hsub : List.Sublist (coreDeviceNames roles) (dkeys roles) :=
      (List.filter_sublist roles).map Prod.fst
    exact hnd.sublist hsub
  have hnd2 : (sortedCoreDevices roles).Nodup := hperm.nodup_iff.mpr hnames
  rw [hlist] at hnd2
  rw [List.nodup_cons] at hnd2
  have hab : a ≠ b := fun hh => hnd2.1 (hh ▸ List.mem_cons_self _ _)
  rw [hlist]
  have hco : core_offsets (a :: b :: t) = dinsert (dinsert [] a 1) b 2 := rfl
  rw [hco]
  constructor
  · rw [dlookup_dinsert_ne _ _ _ _ hab]
    exact dlookup_dinsert_self [] a 1
  · exact dlookup_dinsert_self (dinsert [] a 1) b 2

/-- Witness for C7: names arrive as B, A; the sorted order is A, B and the
offsets map A to 1 and B to 2. -/
theorem core_device_order_offsets_witness :
    List.Sorted pyStrLe (sortedCoreDevices
      [("B", "collapsed-core"), ("A", "collapsed-core"), ("X", "access")]) ∧
    dlookup "A" (core_offsets (sortedCoreDevices
      [("B", "collapsed-core"), ("A", "collapsed-core"), ("X", "access")])) = some 1 ∧
    dlookup "B" (core_offsets (sortedCoreDevices
      [("B", "collapsed-core"), ("A", "collapsed-core"), ("X", "access")])) = some 2 := by
  have h := core_device_order_offsets
    [("B", "collapsed-core"), ("A", "collapsed-core"), ("X", "access")] (by decide)
  have h2 := h.2.2 "A" "B" [] (by decide)
  exact ⟨h.1, h2.1, h2.2⟩

/-! ## C5 — `make_other_ip_configs` offset allocation -/

theorem rowEntry_ok_val (offset : Nat) (net : NetRow) (e : OtherIpEntry)
    (h : rowEntry offset net = .ok e) : e = rowEntryOk offset net := by
  cases h4 : net.gw4 with
  | none =>
    cases h6 : net.gw6 with
    | none =>
      simp only [rowEntry, h4, h6] at h
      injection h with h'
      rw [← h']
      simp [rowEntryOk, h4, h6]
    | some g6 =>
      obtain ⟨a6, p6⟩ := g6
      simp only [rowEntry, h4, h6] at h
      split_ifs at h
      injection h with h'
      rw [← h']
      simp [rowEntryOk, h4, h6]
  | some g4 =>
    obtain ⟨a, p⟩ := g4
    cases h6 : net.gw6 with
    | none =>
      simp only [rowEntry, h4, h6] at h
      split_ifs at h
      injection h with h'
      rw [← h']
      simp [rowEntryOk, h4, h6]
    | some g6 =>
      obtain ⟨a6, p6⟩ := g6
      simp only [rowEntry, h4, h6] at h
      split_ifs at h
      injection h with h'
      rw [← h']
      simp [rowEntryOk, h4, h6]

theorem make_other_cons_eq (offset : Nat) (net : NetRow) (rest : List NetRow)
    (cfg0 : List (String × OtherIpEntry)) :
    make_other_ip_configs offset (net :: rest) cfg0
      = if net.name = "" then make_other_ip_configs offset rest cfg0
        else Except.bind (rowEntry offset net) (fun e =>
          if net.gw4 = none ∧ net.gw6 = none then make_other_ip_configs offset rest cfg0
          else make_other_ip_configs offset rest (dinsert cfg0 net.name e)) := rfl

theorem make_other_ok (offset : Nat) (rows : List NetRow) :
    ∀ (cfg0 cfg : List (String × OtherIpEntry)),
      make_other_ip_configs offset rows cfg0 = .ok cfg →
      cfg = dfold cfg0 (entriesOf offset rows) := by
  induction rows with
  | nil =>
    intro cfg0 cfg h
    injection h with h'
    rw [← h']
    rfl
  | cons net rest ih =>
    intro cfg0 cfg h
    rw [make_other_cons_eq] at h
    by_cases hname : net.name = ""
    · rw [if_pos hname] at h
      rw [ih cfg0 cfg h]
      have he : entriesOf offset (net :: rest) = entriesOf offset rest := by
        simp [entriesOf, hname]
      rw [he]
    · rw [if_neg hname] at h
      cases hre : rowEntry offset net with
      | error err =>
        rw [hre, except_bind_error] at h
        exact Except.noConfusion h
      | ok e =>
        rw [hre, except_bind_ok] at h
        by_cases hgw : net.gw4 = none ∧ net.gw6 = none
        · rw [if_pos hgw] at h
          rw [ih cfg0 cfg h]
          have he : entriesOf offset (net :: rest) = entriesOf offset rest := by
            simp [entriesOf, hgw.1, hgw.2]
          rw [he]
        · rw [if_neg hgw] at h
          rw [ih _ cfg h]
          have he : entriesOf offset (net :: rest)
              = (net.name, rowEntryOk offset net) :: entriesOf offset rest := by
            simp [entriesOf, hname, hgw]
          rw [he, rowEntry_ok_val offset net e hre]
          rfl

theorem entriesOf_keys_sublist (offset : Nat) (rows : List NetRow) :
    List.Sublist (dkeys (entriesOf offset rows))
      ((rows.map NetRow.name).filter (fun n => decide (n ≠ ""))) := by
  induction rows with
  | nil => simp [entriesOf, dkeys]
  | cons net rest ih =>
    by_cases hname : net.name = ""
    · have h1 : entriesOf offset (net :: rest) = entriesOf offset rest := by
        simp [entriesOf, hname]
      have h2 : ((net :: rest).map NetRow.name).filter (fun n => decide (n ≠ ""))
          = (rest.map NetRow.name).filter (fun n => decide (n ≠ "")) := by
        simp [hname]
      rw [h1, h2]
      exact ih
    · have h2 : ((net :: rest).map NetRow.name).filter (fun n => decide (n ≠ ""))
          = net.name :: (rest.map NetRow.name).filter (fun n => decide (n ≠ "")) := by
        simp [hname]
      rw [h2]
      by_cases hgw : net.gw4 = none ∧ net.gw6 = none
      · have h1 : entriesOf offset (net :: rest) = entriesOf offset rest := by
          simp [entriesOf, hgw.1, hgw.2]
        rw [h1]
        exact ih.cons _
      · have h1 : entriesOf offset (net :: rest)
            = (net.name, rowEntryOk offset net) :: entriesOf offset rest := by
          simp [entriesOf, hname, hgw]
        rw [h1, dkeys_cons]
        exact ih.cons₂ _

theorem entriesOf_lookup (offset : Nat) (rows : List NetRow) (net : NetRow)
    (hmem : net ∈ rows) (hname : net.name ≠ "")
    (hnd : ((rows.map NetRow.name).filter (fun n => decide (n ≠ ""))).Nodup) :
    dlookup net.name (entriesOf offset rows)
      = if net.gw4 = none ∧ net.gw6 = none then none
        else some (rowEntryOk offset net) := by
  induction rows with
  | nil => cases hmem
  | cons r rest ih =>
    rcases List.mem_cons.mp hmem with rfl | hmem'
    · have hfil : ((net :: rest).map NetRow.name).filter (fun n => decide (n ≠ ""))
          = net.name :: (rest.map NetRow.name).filter (fun n => decide (n ≠ "")) := by
        simp [hname]
      rw [hfil, List.nodup_cons] at hnd
      by_cases hgw : net.gw4 = none ∧ net.gw6 = none
      · rw [if_pos hgw]
        have h1 : entriesOf offset (net :: rest) = entriesOf offset rest := by
          simp [entriesOf, hgw.1, hgw.2]
        rw [h1, dlookup_eq_none_iff]
        intro hk
        exact hnd.1 ((entriesOf_keys_sublist offset rest).subset hk)
      · rw [if_neg hgw]
        have h1 : entriesOf offset (net :: rest)
            = (net.name, rowEntryOk offset net) :: entriesOf offset rest := by
          simp [entriesOf, hname, hgw]
        rw [h1]
        simp [dlookup]
    · by_cases hrname : r.name = ""
      · have h1 : entriesOf offset (r :: rest) = entriesOf offset rest := by
          simp [entriesOf, hrname]
        have h2 : ((r :: rest).map NetRow.name).filter (fun n => decide (n ≠ ""))
            = (rest.map NetRow.name).filter (fun n => decide (n ≠ "")) := by
          simp [hrname]
        rw [h2] at hnd
        rw [h1]
        exact ih hmem' hnd
      · have hfil : ((r :: rest).map NetRow.name).filter (fun n => decide (n ≠ ""))
            = r.name :: (rest.map NetRow.name).filter (fun n => decide (n ≠ "")) := by
          simp [hrname]
        rw [hfil, List.nodup_cons] at hnd
        have hne : r.name ≠ net.name := by
          intro hh
          apply hnd.1
          rw [hh]
          exact List.mem_filter.mpr ⟨List.mem_map_of_mem _ hmem', by simp [hname]⟩
        by_cases hgw : r.gw4 = none ∧ r.gw6 = none
        · have h1 : entriesOf offset (r :: rest) = entriesOf offset rest := by
            simp [entriesOf, hgw.1, hgw.2]
          rw [h1]
          exact ih hmem' hnd.2
        · have h1 : entriesOf offset (r :: rest)
              = (r.name, rowEntryOk offset r) :: entriesOf offset rest := by
            simp [entriesOf, hrname, hgw]
          rw [h1, dlookup, if_neg hne]
          exact ih hmem' hnd.2

/-- C5: whenever `make_other_ip_configs` succeeds with offset k ∈ {1, 2}
(on rows with the unique network names the data model guarantees), each named
network with a v4 gateway gets `ip = gateway + k` with the gateway's netmask,
each network with a v6 gateway gets `ip6 = gateway + k` with the gateway's
prefix length, the family without a gateway gets no fields, and a network
with no gateway at all gets no entry. -/
theorem other_ip_offset_spec (k : Nat) (rows : List NetRow)
    (cfg : List (String × OtherIpEntry)) (_hk : k = 1 ∨ k = 2)
    (hnd : ((rows.map NetRow.name).filter (fun n => decide (n ≠ ""))).Nodup)
    (hok : make_other_ip_configs k rows [] = .ok cfg)
    (net : NetRow) (hmem : net ∈ rows) (hname : net.name ≠ "") :
    (∀ a p, net.gw4 = some (a, p) → ∃ e, dlookup net.name cfg = some e ∧
        e.ip = some (a + k) ∧ e.netmask = some (v4mask p)) ∧
    (∀ a p, net.gw6 = some (a, p) → ∃ e, dlookup net.name cfg = some e ∧
        e.ip6 = some (a + k) ∧ e.netmask6 = some p) ∧
    (net.gw4 = none → ∀ e, dlookup net.name cfg = some e →
        e.ip = none ∧ e.netmask = none) ∧
    (net.gw6 = none → ∀ e, dlookup net.name cfg = some e →
        e.ip6 = none ∧ e.netmask6 = none) ∧
    (net.gw4 = none → net.gw6 = none → dlookup net.name cfg = none) := by
  have hcfg : cfg = dfold [] (entriesOf k rows) := make_other_ok k rows [] cfg hok
  have hndk : (dkeys (entriesOf k rows)).Nodup :=
    hnd.sublist (entriesOf_keys_sublist k rows)
  have hlook : dlookup net.name cfg = dlookup net.name (entriesOf k rows) := by
    rw [hcfg, dlookup_dfold, dlookup_reverse_of_nodup _ _ hndk]
    cases dlookup net.name (entriesOf k rows) <;> simp [dlookup]
  have hkey := entriesOf_lookup k rows net hmem hname hnd
  refine ⟨fun a p h4 => ?_, fun a p h6 => ?_, fun h4 e he => ?_, fun h6 e he => ?_,
    fun h4 h6 => ?_⟩
  · have hgw : ¬ (net.gw4 = none ∧ net.gw6 = none) := fun hc => by
      rw [h4] at hc; cases hc.1
    rw [if_neg hgw] at hkey
    exact ⟨rowEntryOk k net, by rw [hlook, hkey], by simp [rowEntryOk, h4],
      by simp [rowEntryOk, h4]⟩
  · have hgw : ¬ (net.gw4 = none ∧ net.gw6 = none) := fun hc => by
      rw [h6] at hc; cases hc.2
    rw [if_neg hgw] at hkey
    exact ⟨rowEntryOk k net, by rw [hlook, hkey], by simp [rowEntryOk, h6],
      by simp [rowEntryOk, h6]⟩
  · rw [hlook, hkey] at he
    by_cases hgw : net.gw4 = none ∧ net.gw6 = none
    · rw [if_pos hgw] at he; cases he
    · rw [if_neg hgw] at he
      injection he with he'
      rw [← he']
      simp [rowEntryOk, h4]
  · rw [hlook, hkey] at he
    by_cases hgw : net.gw4 = none ∧ net.gw6 = none
    · rw [if_pos hgw] at he; cases he
    · rw [if_neg hgw] at he
      injection he with he'
      rw [← he']
      simp [rowEntryOk, h6]
  · rw [hlook, hkey, if_pos ⟨h4, h6⟩]

/-- Witness for C5 at the spec's example: gateway 10.0.0.1/24 with offset 2
yields 10.0.0.3 with the /24 netmask; a v6 gateway ::1/64 yields ::3/64;
the v6-less network has no v6 fields. -/
theorem other_ip_offset_spec_witness :
    (∃ e : OtherIpEntry, dlookup "n1"
        ([("n1", { ip := some 167772163, netmask := some (v4mask 24) }),
          ("n2", { ip6 := some 3, netmask6 := some 64 })] : List (String × OtherIpEntry))
        = some e ∧
       e.ip = some (167772161 + 2) ∧ e.netmask = some (v4mask 24)) ∧
    (∀ e : OtherIpEntry, dlookup "n1"
        ([("n1", { ip := some 167772163, netmask := some (v4mask 24) }),
          ("n2", { ip6 := some 3, netmask6 := some 64 })] : List (String × OtherIpEntry))
        = some e →
       e.ip6 = none ∧ e.netmask6 = none) := by
  have h := other_ip_offset_spec 2
    [⟨"n1", some (167772161, 24), none⟩, ⟨"n2", none, some (1, 64)⟩]
    [("n1", { ip := some 167772163, netmask := some (v4mask 24) }),
     ("n2", { ip6 := some 3, netmask6 := some 64 })]
    (Or.inr rfl) (by decide) rfl
    ⟨"n1", some (167772161, 24), none⟩ (by decide) (by decide)
  exact ⟨h.1 167772161 24 rfl, h.2.2.2.1 rfl⟩

end EvpnMh
